import Mathlib

/-!
Verification of the GraphRAG-powered chatbot core: the similarity graph
(`app/services/rag/graph_rag.py`), the retrieval orchestrator
(`app/services/chat.py`), and the tool routing layer
(`app/services/tool_gateway.py`, `app/services/tool_service.py`).

Python dictionaries are embedded as insertion-ordered association lists,
floats as rationals, and external effects (vector search, web search,
generator calls) as explicit outcome parameters.
-/

set_option maxRecDepth 100000

unseal Rat.mul Rat.add Rat.sub Rat.ofScientific

namespace S2P

/-! ## Association lists (Python `dict` with insertion order) -/

/-- Lookup in an insertion-ordered association list (Python `d[k]` / `d.get(k)`). -/
def alookup {β : Type} (k : String) : List (String × β) → Option β
  | [] => none
  | (k', v) :: rest => if k' = k then some v else alookup k rest

/-- Python `d[k] = v`: replace in place when the key exists, append otherwise. -/
def aset {β : Type} (k : String) (v : β) : List (String × β) → List (String × β)
  | [] => [(k, v)]
  | (k', v') :: rest => if k' = k then (k, v) :: rest else (k', v') :: aset k v rest

/-- Apply a function to the value stored at a key, leaving other entries alone. -/
def amodify {β : Type} (k : String) (f : β → β) : List (String × β) → List (String × β)
  | [] => []
  | (k', v') :: rest => if k' = k then (k, f v') :: rest else (k', v') :: amodify k f rest

/-- The key list of an association list, in insertion order. -/
def keysOf {β : Type} (l : List (String × β)) : List String := l.map Prod.fst

/-! ## SimilarityGraph: embedding of `app/services/rag/graph_rag.py` (class GraphRAG)

The Python class keeps a `networkx.Graph` plus two dicts.  We embed the
networkx graph as an attribute map (`nodes`, node id to stored attributes)
and an adjacency map (`adj`, node id to its ordered neighbor/weight list),
which is exactly networkx's `_node` / `_adj` representation.  Embedding
vectors are an abstract type `E`; the external `sentence_transformers.util.cos_sim`
call is an abstract similarity function `sim : E → E → ℚ` threaded into the
operations that use it. -/

/-- Attributes stored on a graph node by `add_document`
(`self.graph.add_node(doc_id, text=text, metadata=metadata or {})`). -/
structure NodeData where
  text : String
  metadata : List (String × String)
deriving DecidableEq

/-- State of a `GraphRAG` instance: the networkx graph (`nodes` attribute map and
`adj` adjacency map), `self.embeddings`, and `self.texts`. -/
structure GraphRAG (E : Type) where
  nodes : List (String × NodeData)
  adj : List (String × List (String × ℚ))
  embeddings : List (String × E)
  texts : List (String × String)
deriving DecidableEq

/-- `GraphRAG.__init__`: empty graph, empty dicts. -/
def GraphRAG.empty {E : Type} : GraphRAG E := ⟨[], [], [], []⟩

/-- networkx `Graph.add_node` with attribute dict `{text, metadata}`: creates the
node (with an empty adjacency row) when absent, otherwise overwrites its attributes. -/
def addNode {E : Type} (st : GraphRAG E) (docId : String) (nd : NodeData) : GraphRAG E :=
  { st with
    nodes := aset docId nd st.nodes,
    adj := if docId ∈ keysOf st.adj then st.adj else st.adj ++ [(docId, [])] }

/-- networkx `Graph.add_edge(a, b, weight=w)`: ensures both endpoints exist, then
records the weight in both adjacency rows (undirected graph). -/
def addEdge {E : Type} (st : GraphRAG E) (a b : String) (w : ℚ) : GraphRAG E :=
  let adj1 := if a ∈ keysOf st.adj then st.adj else st.adj ++ [(a, [])]
  let adj2 := if b ∈ keysOf adj1 then adj1 else adj1 ++ [(b, [])]
  { st with adj := amodify b (aset a w) (amodify a (aset b w) adj2) }

/-- The edge-creation loop of `add_document`: `for existing_id in self.embeddings:`
skip `doc_id` itself, compute the similarity of the new embedding to the stored
one, and add an edge when it exceeds the 0.7 threshold.  The iterated dict is a
snapshot argument because the loop never mutates `self.embeddings`. -/
def addEdges {E : Type} (sim : E → E → ℚ) (docId : String) (emb : E) :
    List (String × E) → GraphRAG E → GraphRAG E
  | [], st => st
  | (eid, eemb) :: rest, st =>
      let st' := if eid = docId then st
                 else if 0.7 < sim emb eemb then addEdge st docId eid (sim emb eemb) else st
      addEdges sim docId emb rest st'

/-- `GraphRAG.add_document(doc_id, text, embedding, metadata=None)`. -/
def addDocument {E : Type} (sim : E → E → ℚ) (st : GraphRAG E) (docId : String)
    (text : String) (emb : E) (md : Option (List (String × String))) : GraphRAG E :=
  let st1 := addNode st docId ⟨text, md.getD []⟩
  let st2 := { st1 with
    embeddings := aset docId emb st1.embeddings,
    texts := aset docId text st1.texts }
  addEdges sim docId emb st2.embeddings st2

/-- One `add_document` call with its arguments, for replaying call sequences. -/
structure DocOp (E : Type) where
  docId : String
  text : String
  emb : E
  md : Option (List (String × String))

/-- Replay a sequence of `add_document` calls against a fresh `GraphRAG()`. -/
def replay {E : Type} (sim : E → E → ℚ) (ops : List (DocOp E)) : GraphRAG E :=
  ops.foldl (fun st op => addDocument sim st op.docId op.text op.emb op.md) GraphRAG.empty

/-- `doc_id in self.graph` (networkx node membership). -/
def isNode {E : Type} (st : GraphRAG E) (docId : String) : Bool :=
  (alookup docId st.adj).isSome

/-- The weight stored on edge `a → b`, if any: `self.graph.edges[a, b]["weight"]`. -/
def edgeWeight {E : Type} (st : GraphRAG E) (a b : String) : Option ℚ :=
  (alookup a st.adj).bind (fun row => alookup b row)

/-! ### `get_context` (graph expansion)

`get_context` builds Python `set`s of node ids and finally iterates the result
set, whose iteration order CPython leaves unspecified; the observable result is
therefore the returned *set* of document ids (each paired with its stored text
and metadata), which we model as a `Finset`. -/

/-- One BFS layer: `new_neighbors = union of graph.neighbors(node) for node in current
if node in graph`. -/
def stepNeighbors {E : Type} (st : GraphRAG E) (current : Finset String) : Finset String :=
  current.biUnion (fun node => ((alookup node st.adj).getD []).map Prod.fst |>.toFinset)

/-- The inner `for _ in range(depth)` loop: repeatedly take a BFS layer, adding
every layer into the running `neighbors` accumulator. -/
def exploreFrom {E : Type} (st : GraphRAG E) :
    Nat → Finset String → Finset String → Finset String
  | 0, _, acc => acc
  | d + 1, current, acc =>
      let nw := stepNeighbors st current
      exploreFrom st d nw (acc ∪ nw)

/-- The outer `for doc_id in relevant_docs` loop accumulating `neighbors`
(seeds absent from the graph are skipped). -/
def collectNeighbors {E : Type} (st : GraphRAG E) (docs : List String) (depth : Nat) :
    Finset String :=
  docs.foldl (fun acc d => if isNode st d then exploreFrom st depth {d} acc else acc) ∅

/-- The id set of the documents returned by `GraphRAG.get_context(relevant_docs, depth)`:
seeds plus accumulated neighbors, filtered by `doc_id in self.texts and doc_id in self.graph`. -/
def getContextIds {E : Type} (st : GraphRAG E) (docs : List String) (depth : Nat) :
    Finset String :=
  if docs.isEmpty then ∅
  else (docs.toFinset ∪ collectNeighbors st docs depth).filter
    (fun d => (alookup d st.texts).isSome ∧ (alookup d st.adj).isSome)

/-! ### `get_document_relationships` -/

/-- One relationship record `{id, text, similarity, metadata}`. -/
structure RelEntry where
  id : String
  text : String
  similarity : ℚ
  metadata : List (String × String)
deriving DecidableEq

/-- The `for neighbor in self.graph.neighbors(doc_id)` loop body.  Looking up
`self.texts[neighbor]` or `self.graph.nodes[neighbor]["metadata"]` raises
`KeyError` when absent; the embedding returns `none` in that case. -/
def relFromAdj {E : Type} (st : GraphRAG E) : List (String × ℚ) → Option (List RelEntry)
  | [] => some []
  | (n, w) :: rest => do
      let t ← alookup n st.texts
      let nd ← alookup n st.nodes
      let tail ← relFromAdj st rest
      some ({ id := n, text := t, similarity := w, metadata := nd.metadata } :: tail)

/-- Stable insert for descending sort: an element is placed before the first
entry whose key is not larger, so equal keys keep their original order
(CPython `sorted(..., reverse=True)` is stable). -/
def insertDescBy {α : Type} (key : α → ℚ) (x : α) : List α → List α
  | [] => [x]
  | y :: ys => if key y ≤ key x then x :: y :: ys else y :: insertDescBy key x ys

/-- Stable descending sort by a rational key, matching Python
`sorted(items, key=..., reverse=True)`. -/
def sortDescBy {α : Type} (key : α → ℚ) : List α → List α
  | [] => []
  | x :: xs => insertDescBy key x (sortDescBy key xs)

/-- `GraphRAG.get_document_relationships(doc_id)`: `[]` when the id is not a node,
otherwise the neighbor records sorted by similarity descending.  `none` models an
uncaught `KeyError` while building a record. -/
def getDocumentRelationships {E : Type} (st : GraphRAG E) (docId : String) :
    Option (List RelEntry) :=
  match alookup docId st.adj with
  | none => some []
  | some row => (relFromAdj st row).map (sortDescBy (fun r => r.similarity))

/-! ## Store-synchronization invariants of GraphRAG (claim C10) -/

/-- The three stores (`graph` nodes, `embeddings`, `texts`) and the adjacency map
always carry exactly the same keys, in the same insertion order. -/
def Synced {E : Type} (st : GraphRAG E) : Prop :=
  keysOf st.embeddings = keysOf st.nodes ∧
  keysOf st.texts = keysOf st.nodes ∧
  keysOf st.adj = keysOf st.nodes

/-- No adjacency row mentions its own node: no self-loop edge ever exists. -/
def NoSelf {E : Type} (st : GraphRAG E) : Prop :=
  ∀ k row, alookup k st.adj = some row → k ∉ keysOf row

/-- Every neighbor id mentioned in an adjacency row is itself a node of the graph. -/
def NbrNodes {E : Type} (st : GraphRAG E) : Prop :=
  ∀ k row, alookup k st.adj = some row → ∀ n ∈ keysOf row, n ∈ keysOf st.adj

/-- Node keys are distinct (each id appears once in the attribute map). -/
def KeysNodup {E : Type} (st : GraphRAG E) : Prop :=
  (keysOf st.nodes).Nodup

/-- The well-formedness bundle preserved by every `add_document` call. -/
def WF {E : Type} (st : GraphRAG E) : Prop :=
  Synced st ∧ KeysNodup st ∧ NoSelf st ∧ NbrNodes st

/-- Every adjacency row lists its neighbor ids as a subsequence of the node key
list, i.e. in node-insertion order. -/
def AdjOrdered {E : Type} (st : GraphRAG E) : Prop :=
  ∀ k row, alookup k st.adj = some row →
    List.Sublist (keysOf row) (keysOf st.nodes)

/-- The relation claimed by C9 for consecutive relationship entries: weights
descending, and equal weights ordered by node-insertion order (`[x.id, y.id]` is
a subsequence of the node key list). -/
def RelOrdered (nodeKeys : List String) (x y : RelEntry) : Prop :=
  y.similarity ≤ x.similarity ∧
    (x.similarity ≤ y.similarity → List.Sublist [x.id, y.id] nodeKeys)

/-- The C5 edge invariant: between any two distinct stored documents there is an
edge exactly when the similarity of their stored embeddings exceeds 0.7, and its
weight is exactly that similarity. -/
def EdgesMatchSim {E : Type} (sim : E → E → ℚ) (st : GraphRAG E) : Prop :=
  ∀ a b ea eb, a ≠ b →
    alookup a st.embeddings = some ea → alookup b st.embeddings = some eb →
    edgeWeight st a b = if (0.7 : ℚ) < sim ea eb then some (sim ea eb) else none

/-! ## RetrievalOrchestrator: embedding of `ChatService.get_response` (`app/services/chat.py`)

External effects are explicit outcome parameters: the vector search result (or a
caught exception), whether an OpenRouter key is configured, the web-search tool
outcome, and the generator outcome.  Strings are processed per character exactly
as CPython does for ASCII text (every string the claims touch is ASCII). -/

/-- ASCII lowercasing of one character (CPython `str.lower` restricted to ASCII). -/
def lowerChar (c : Char) : Char :=
  if 'A' ≤ c ∧ c ≤ 'Z' then Char.ofNat (c.toNat + 32) else c

/-- `query.lower()` for ASCII text. -/
def strLower (s : String) : String := ⟨s.data.map lowerChar⟩

/-- Python substring test `needle in hay`. -/
def containsSub (hay needle : String) : Bool :=
  hay.data.tails.any (fun t => needle.data.isPrefixOf t)

/-- The inline keyword list of `get_response` (chat.py lines 177-181). -/
def webSearchKeywords : List String :=
  ["current", "latest", "today", "recent", "now", "2024", "2025", "breaking", "news",
   "more", "additional", "expand", "elaborate", "details", "comprehensive", "complete",
   "update", "new", "advance", "development", "trend", "state of", "overview"]

/-- `needs_web_search = any(keyword in query.lower() for keyword in [...])`. -/
def needsWebSearch (query : String) : Bool :=
  webSearchKeywords.any (fun k => containsSub (strLower query) k)

/-- Round to the nearest integer, ties to even — the rounding CPython's `format`
applies when printing with `:.3f` (applied here to the exact rational score). -/
def roundHalfEven (q : ℚ) : ℤ :=
  let f : ℤ := q.floor
  let r : ℚ := q - (f : ℚ)
  if r < 0.5 then f
  else if 0.5 < r then f + 1
  else if f % 2 = 0 then f else f + 1

/-- Left-pad a three-digit fractional part with zeros. -/
def pad3 (n : Nat) : String :=
  if n < 10 then "00" ++ toString n
  else if n < 100 then "0" ++ toString n
  else toString n

/-- Python `f"{score:.3f}"`: fixed-point formatting with exactly three decimals. -/
def format3 (q : ℚ) : String :=
  let s : ℤ := roundHalfEven (q * 1000)
  let sign : String := if s < 0 then "-" else ""
  let a : Nat := s.natAbs
  sign ++ toString (a / 1000) ++ "." ++ pad3 (a % 1000)

/-- One result of `VectorStore.semantic_search`: `{text, score, metadata}`. -/
structure Candidate where
  text : String
  score : ℚ
  metadata : List (String × String)
deriving DecidableEq

/-- One entry of `enhanced_context`. -/
structure ContextEntry where
  id : String
  text : String
  metadata : List (String × String)
  score : ℚ
deriving DecidableEq

/-- The `top_source_info` dict (chat.py lines 95-103 and 160-174). -/
structure SourceInfo where
  srcType : String
  topic : String
  category : String
  filename : Option String
  score : ℚ
  relevance_score : String
  has_file : Bool
  text_preview : Option String
deriving DecidableEq

/-- One entry of the final `sources` list: the knowledge-base citation or the
supplementary web-search record (chat.py lines 320-338). -/
inductive SourceEntry where
  | knowledge (info : SourceInfo)
  | webSearch (srcQuery : String)
deriving DecidableEq

/-- A successful OpenRouter completion: text, model id, token usage. -/
structure GenSuccess where
  text : String
  model : String
  totalTokens : Nat
deriving DecidableEq

/-- The `metadata` field of the returned payload (error and success shapes). -/
inductive RespMeta where
  | errorMeta (model : String) (error : String)
  | successMeta (model : String) (totalTokens : Nat) (ragDocsUsed : Nat)
      (topMatchScore : Option ℚ) (webSearchUsed : Bool) (primarySource : String)
deriving DecidableEq

/-- The observables of one `get_response` run: the returned payload plus the
grounding instruction (system message) handed to the generator. -/
structure ChatRun where
  response : String
  context : List ContextEntry
  sources : List SourceEntry
  meta : RespMeta
  groundingInstruction : String
  messages : List (String × String)
deriving DecidableEq

/-- Outcomes of the external calls made during one `get_response` run:
`semantic_search` (a caught exception yields `.error`), the API-key presence
check, the `web_search` tool call, and the OpenRouter completion
(`.error` carries `str(e)` of the raised exception). -/
structure ChatDeps where
  searchOutcome : Except Unit (List Candidate)
  apiKeyOk : Bool
  webOutcome : Except Unit String
  genOutcome : Except String GenSuccess

/-- `metadata.get(k, dflt)`. -/
def mdGet (md : List (String × String)) (k dflt : String) : String :=
  (alookup k md).getD dflt

/-- Lines 57-60: `sorted(relevant_docs, key=lambda x: x.get('score', 0.0),
reverse=True)` followed by `[0]`; CPython's sort is stable. -/
def selectTop (docs : List Candidate) : Option Candidate :=
  (sortDescBy (fun c => c.score) docs).head?

/-- Lines 74-103: build `top_source_info` from the top match. -/
def mkTopSourceInfo (top : Candidate) : SourceInfo :=
  let metadata := top.metadata
  let topic := mdGet metadata "topic" "Unknown"
  let sourceType := mdGet metadata "source" ""
  let filename0 := alookup "filename" metadata
  let hasFile : Bool := match filename0 with
    | none => false
    | some f => f != "Unknown" && sourceType != "original"
  { srcType := "knowledge_base"
    topic := topic
    category := mdGet metadata "category" "Unknown"
    filename := if hasFile then filename0 else none
    score := top.score
    relevance_score := format3 top.score
    has_file := hasFile
    text_preview := none }

/-- Lines 41-109: vector search, top-match selection, `enhanced_context`.
A caught retrieval exception leaves the context empty. -/
def assemble (outcome : Except Unit (List Candidate)) :
    Option SourceInfo × List ContextEntry :=
  match outcome with
  | .error _ => (none, [])
  | .ok docs =>
    match selectTop docs with
    | none => (none, [])
    | some top =>
      (some (mkTopSourceInfo top),
       [{ id := "doc_0", text := top.text, metadata := top.metadata, score := top.score }])

/-- Line 129-132: cap the grounding excerpt at 2000 characters. -/
def mkContextStr (full : String) : String :=
  if 2000 < full.data.length then String.mk (full.data.take 2000) ++ "..." else full

/-- Lines 158 and 173: the 300-character UI preview. -/
def mkPreview (full : String) : String :=
  if 300 < full.data.length then String.mk (full.data.take 300) ++ "..." else full

/-- Lines 136-169: rebuild `top_source_info` from the context entry (the fallback
when it was not already set), preview included. -/
def fallbackInfo (e : ContextEntry) : SourceInfo :=
  let metadata := e.metadata
  let topic := mdGet metadata "topic" "Unknown"
  let sourceType := mdGet metadata "source" ""
  let filename0 := alookup "filename" metadata
  let hasFile : Bool := match filename0 with
    | none => false
    | some f => f != "Unknown" && sourceType != "original"
  { srcType := "knowledge_base"
    topic := topic
    category := mdGet metadata "category" "Unknown"
    filename := if hasFile then filename0 else none
    score := e.score
    relevance_score := format3 e.score
    has_file := hasFile
    text_preview := some (mkPreview e.text) }

/-- Lines 170-174: add `text_preview` when it is not already present. -/
def withPreview (info : SourceInfo) (full : String) : SourceInfo :=
  if info.text_preview.isNone then { info with text_preview := some (mkPreview full) }
  else info

/-- Lines 119-174: compute `context_str` and the final `top_source_info`. -/
def stepContext (ti0 : Option SourceInfo) (ctx : List ContextEntry) :
    String × Option SourceInfo :=
  match ctx with
  | [] => ("", ti0)
  | e :: _ =>
    (mkContextStr e.text,
     match ti0 with
     | none => some (fallbackInfo e)
     | some i => some (withPreview i e.text))

/-- Python truthiness of an optional string (`if web_search_result:`). -/
def optTruthy : Option String → Bool
  | none => false
  | some s => s != ""

/-- Lines 198-203: the citation name of the primary source. -/
def sourceNameOf (ti : Option SourceInfo) : String :=
  match ti with
  | none => "the knowledge base"
  | some i =>
    let base := "'" ++ i.topic ++ "' from the knowledge base"
    if i.category != "" then base ++ " (Category: " ++ i.category ++ ")" else base

/-- `top_source_info.get('relevance_score', 'N/A') if top_source_info else 'N/A'`. -/
def relevanceDisplay (ti : Option SourceInfo) : String :=
  match ti with
  | none => "N/A"
  | some i => i.relevance_score

/-- The system prompt used when both a knowledge excerpt and a web result exist
(chat.py lines 206-225). -/
def kbWebContent (sourceName relevance contextStr w : String) : String :=
  "You are a helpful AI assistant with access to a knowledge base and current web information.\n\nPRIMARY SOURCE (Highest Matching Document from Knowledge Base):\nSource: " ++ sourceName ++ "\nRelevance Score: " ++ relevance ++ "\n\nRELEVANT CONTENT FROM PRIMARY SOURCE (excerpt):\n" ++ contextStr ++ "\n\nCURRENT WEB INFORMATION (Supplementary):\n" ++ w ++ "\n\nINSTRUCTIONS:\n1. Provide a CONCISE, natural answer based on the knowledge base content above\n2. DO NOT repeat or copy the entire document - only use relevant information that answers the user's question\n3. Use web information only to supplement or provide additional context if needed\n4. ALWAYS cite the source: Mention \"" ++ sourceName ++ "\" in your response (e.g., \"According to " ++ sourceName ++ ", ...\")\n5. Keep your response focused and answer only what was asked\n6. If the primary source doesn't fully answer the question, acknowledge this and use web information to fill gaps\n7. The user can click on the source to view the full document if they need more details"

/-- The system prompt used when only a knowledge excerpt exists (lines 227-245). -/
def kbOnlyContent (sourceName relevance contextStr : String) : String :=
  "You are a helpful AI assistant with access to a knowledge base.\n\nPRIMARY SOURCE (Highest Matching Document):\nSource: " ++ sourceName ++ "\nRelevance Score: " ++ relevance ++ "\n\nRELEVANT CONTENT FROM SOURCE (excerpt):\n" ++ contextStr ++ "\n\nINSTRUCTIONS:\n1. Provide a CONCISE, natural answer based on the content provided above\n2. DO NOT repeat or copy the entire document - only extract and present relevant information that answers the user's question\n3. ALWAYS cite the source at the beginning or end of your response\n4. Format your response naturally: \"According to " ++ sourceName ++ ", [your concise answer]\" or \"[your concise answer] (Source: " ++ sourceName ++ ")\"\n5. Keep your response focused - answer only what was asked, not everything in the document\n6. If the source doesn't contain enough information to fully answer the question, acknowledge this limitation\n7. Do not make up information not in the provided source\n8. The user can click on the source citation to view the full document if they need more details\n9. Your answer should be brief and to the point - the full document is available if the user wants to read it"

/-- The system prompt used when the knowledge-base search found nothing (line 247):
it explicitly tells the generator to disclaim missing knowledge-base information. -/
def noKbContent : String :=
  "You are a helpful AI assistant. The knowledge base search didn't return relevant results for this query. Please provide a general answer based on your training data and mention that you don't have specific information in your knowledge base for this topic."

/-- Lines 205-247: select the system prompt. -/
def sysContentOf (contextStr : String) (webResult : Option String) (ti : Option SourceInfo) :
    String :=
  if contextStr != "" && optTruthy webResult then
    kbWebContent (sourceNameOf ti) (relevanceDisplay ti) contextStr (webResult.getD "")
  else if contextStr != "" then
    kbOnlyContent (sourceNameOf ti) (relevanceDisplay ti) contextStr
  else noKbContent

/-- Lines 258-262: the missing-API-key message. -/
def apiKeyMissingMsg : String :=
  "OPENROUTER_API_KEY is not configured. Please set your API key in the .env file. Get your API key from: https://openrouter.ai/keys"

/-- Lines 296-300. -/
def authFailedMsg : String :=
  "Authentication failed. Please check your OPENROUTER_API_KEY in the .env file. Make sure it's set correctly (without quotes) and restart the server after updating it. Get your API key from: https://openrouter.ai/keys"

/-- Lines 302-305. -/
def forbiddenMsg : String :=
  "Access forbidden. Please check your OpenRouter API key permissions and account status. Visit https://openrouter.ai to verify your account."

/-- Lines 291-307: map the exception text of a failed OpenRouter call to the
user-visible error message. -/
def openRouterErrorMsg (e : String) : String :=
  if containsSub e "401" || containsSub e "No auth credentials" ||
      containsSub e "Invalid API key" || containsSub e "Unauthorized" then authFailedMsg
  else if containsSub e "403" || containsSub e "Forbidden" then forbiddenMsg
  else "API Error: " ++ e ++ ". Please check your API key and try again."

/-- Lines 113-117: chat history as role-tagged turns. -/
def historyMessages : List (String × Option String) → List (String × String)
  | [] => []
  | (u, oa) :: rest =>
    ("user", u) ::
      ((match oa with
        | some a => [("assistant", a)]
        | none => []) ++ historyMessages rest)

/-- `ChatService.get_response(query, chat_history)`: the full orchestrator run,
with every external call's outcome supplied through `deps`. -/
def getResponse (deps : ChatDeps) (query : String)
    (history : List (String × Option String)) : ChatRun :=
  let p := assemble deps.searchOutcome
  let ctx := p.2
  let q := stepContext p.1 ctx
  let contextStr := q.1
  let topInfo := q.2
  let webResult : Option String :=
    if needsWebSearch query then deps.webOutcome.toOption else none
  let sys := sysContentOf contextStr webResult topInfo
  let messages := ("system", sys) :: (historyMessages history ++ [("user", query)])
  if deps.apiKeyOk = false then
    { response := apiKeyMissingMsg, context := ctx, sources := [],
      meta := .errorMeta "openai/gpt-3.5-turbo" "API key not configured",
      groundingInstruction := sys, messages := messages }
  else
    match deps.genOutcome with
    | .error e =>
      { response := openRouterErrorMsg e, context := ctx, sources := [],
        meta := .errorMeta "openai/gpt-3.5-turbo" e,
        groundingInstruction := sys, messages := messages }
    | .ok g =>
      let sourcesList :=
        (match topInfo with
         | some i => [SourceEntry.knowledge i]
         | none => []) ++
        (if optTruthy webResult then [SourceEntry.webSearch query] else [])
      { response := g.text, context := ctx, sources := sourcesList,
        meta := .successMeta g.model g.totalTokens (if ctx.isEmpty then 0 else 1)
          ((ctx.head?).map (fun e => e.score)) (optTruthy webResult)
          (match topInfo with | some i => i.topic | none => "None"),
        groundingInstruction := sys, messages := messages }

/-! ## ToolRouter: embedding of `ToolGateway.execute_tool` / `ToolService.execute_tool` -/

/-- The tool names `ToolService.execute_tool` dispatches on (lines 77-92). -/
def knownToolNames : List String :=
  ["read_file", "list_directory", "search_files", "web_search",
   "get_weather", "get_news", "get_time", "get_system_info"]

/-- `ToolService.execute_tool(tool_name, arguments)`: dispatch to the matching
tool body (abstracted as `impl`; a raised exception becomes the
`"Error executing tool ..."` string), else the `"Unknown tool: ..."` string.
The function always returns an ordinary string and never raises. -/
def toolServiceExecute (impl : String → Except String String) (toolName : String) : String :=
  if toolName ∈ knownToolNames then
    match impl toolName with
    | .ok s => s
    | .error e => "Error executing tool " ++ toolName ++ ": " ++ e
  else "Unknown tool: " ++ toolName

/-- `ToolGateway.execute_tool`: the MCP branch is an unimplemented stub
(`_ensure_mcp` does nothing and no result is produced), so for any value of
`USE_MCP` the call falls through to the local `ToolService`. -/
def toolGatewayExecute (useMcp : Bool) (impl : String → Except String String)
    (toolName : String) : String :=
  toolServiceExecute impl toolName

/-- Reference definition following the spec's words (section 4.3): `execute(name,
args)` "fails with UnknownCapability if name is not registered by any provider,
otherwise delegates to the first provider advertising name and returns its text
result".  The failure is modeled as `Except.error ()`. -/
def executeCapabilitySpec (registered : List String) (provider : String → String)
    (name : String) : Except Unit String :=
  if name ∈ registered then Except.ok (provider name) else Except.error ()

/-- A similarity function whose value never reaches the edge threshold;
used to build small concrete graph states. -/
def simZero : Unit → Unit → ℚ := fun _ _ => 0

/-- Reference definition following the spec's words for C2 ("inserts a node —
fails if `id` already present; re-insertion must be an explicit update, not
silently merged"): the insertion is rejected when the id is already a node. -/
def addDocumentSpec {E : Type} (sim : E → E → ℚ) (st : GraphRAG E) (docId text : String)
    (emb : E) (md : Option (List (String × String))) : Option (GraphRAG E) :=
  if docId ∈ keysOf (GraphRAG.nodes st) then none
  else some (addDocument sim st docId text emb md)

/-- A concrete similarity table over ℕ-tagged embeddings producing one
equal-weight tie: documents 0 and 1, and 0 and 2, are 0.8-similar; 1 and 2 only
0.5-similar. -/
def simW9 : ℕ → ℕ → ℚ := fun x y =>
  if (x = 1 ∧ y = 2) ∨ (x = 2 ∧ y = 1) then 0.5 else 0.8

/-- Three insertions: "a" gets the equal-weight neighbors "b" and "c". -/
def opsW9 : List (DocOp ℕ) :=
  [⟨"a", "ta", 0, none⟩, ⟨"b", "tb", 1, none⟩, ⟨"c", "tc", 2, none⟩]

/-- A constant similarity above the threshold, for the C5 witness. -/
def simC5 : Unit → Unit → ℚ := fun _ _ => 0.8

/-- Two insertions whose embeddings are 0.8-similar. -/
def opsC5 : List (DocOp Unit) :=
  [⟨"a", "ta", (), none⟩, ⟨"b", "tb", (), none⟩]

/-- A concrete set of tool bodies for the C4 counterexample; the `web_search`
provider legitimately returns the exact text the router produces for an
unregistered capability name. -/
def implC4 : String → Except String String := fun name =>
  if name = "web_search" then Except.ok "Unknown tool: no_such_tool" else Except.ok "ok"

/-- The `top_source_info` value in force at the end of a run's retrieval phase. -/
def runTopInfo (deps : ChatDeps) : Option SourceInfo :=
  (stepContext (assemble deps.searchOutcome).1 (assemble deps.searchOutcome).2).2

/-- The `context_str` excerpt of a run. -/
def runContextStr (deps : ChatDeps) : String :=
  (stepContext (assemble deps.searchOutcome).1 (assemble deps.searchOutcome).2).1

/-- The `web_search_result` value of a run (None unless the trigger fired and the
tool call succeeded). -/
def runWebResult (deps : ChatDeps) (query : String) : Option String :=
  if needsWebSearch query then deps.webOutcome.toOption else none

/-- Run outcomes for the C1 counterexample: the knowledge-base search succeeds
with one strong match, but the generator call raises `"boom"`. -/
def depsC1 : ChatDeps :=
  ⟨Except.ok [⟨"hello text", 0.9, [("topic", "T"), ("category", "C"), ("filename", "f.md")]⟩],
   true, Except.error (), Except.error "boom"⟩

/-- The same run with a successful generator call, for comparison. -/
def depsC1ok : ChatDeps :=
  ⟨Except.ok [⟨"hello text", 0.9, [("topic", "T"), ("category", "C"), ("filename", "f.md")]⟩],
   true, Except.error (), Except.ok ⟨"ans", "m", 7⟩⟩

/-- Run outcomes for the C6 counterexample: an empty candidate set, a triggering
query, a successful web search, and a successful generator call. -/
def depsC6 : ChatDeps :=
  ⟨Except.ok [], true, Except.ok "web stuff", Except.ok ⟨"ans", "m", 10⟩⟩

/-- The claim's example candidate list: scores 0.9 and 0.5. -/
def docsC7 : List Candidate :=
  [⟨"text-a", 0.9, [("topic", "A"), ("category", "X")]⟩,
   ⟨"text-b", 0.5, [("topic", "B"), ("category", "Y")]⟩]

/-- Run outcomes for the C7 witness. -/
def depsC7 : ChatDeps :=
  ⟨Except.ok docsC7, true, Except.error (), Except.ok ⟨"ans", "m", 3⟩⟩

theorem keysOf_nil {β : Type} : keysOf ([] : List (String × β)) = [] := rfl

theorem keysOf_cons {β : Type} (k : String) (v : β) (rest : List (String × β)) :
    keysOf ((k, v) :: rest) = k :: keysOf rest := rfl

theorem keysOf_append {β : Type} (l l' : List (String × β)) :
    keysOf (l ++ l') = keysOf l ++ keysOf l' := by
  simp [keysOf]

theorem mem_keysOf_cons {β : Type} {k k₀ : String} {v₀ : β} {rest : List (String × β)} :
    k ∈ keysOf ((k₀, v₀) :: rest) ↔ k = k₀ ∨ k ∈ keysOf rest := by
  rw [keysOf_cons, List.mem_cons]

theorem alookup_aset_self {β : Type} (k : String) (v : β) (l : List (String × β)) :
    alookup k (aset k v l) = some v := by
  induction l with
  | nil => simp [aset, alookup]
  | cons p rest ih =>
    obtain ⟨k', v'⟩ := p
    by_cases h : k' = k
    · simp [aset, h, alookup]
    · simp [aset, h, alookup, ih]

theorem alookup_aset_ne {β : Type} {k k' : String} (v : β) (l : List (String × β))
    (h : k' ≠ k) : alookup k' (aset k v l) = alookup k' l := by
  have hks : ¬ (k = k') := fun hk => h hk.symm
  induction l with
  | nil => simp [aset, alookup, hks]
  | cons p rest ih =>
    obtain ⟨k₀, v₀⟩ := p
    by_cases h0 : k₀ = k
    · subst h0
      simp [aset, alookup, hks]
    · by_cases h1 : k₀ = k'
      · simp [aset, h0, alookup, h1, h]
      · simp [aset, h0, alookup, h1, ih]

theorem alookup_amodify_self {β : Type} (k : String) (f : β → β) (l : List (String × β)) :
    alookup k (amodify k f l) = (alookup k l).map f := by
  induction l with
  | nil => simp [amodify, alookup]
  | cons p rest ih =>
    obtain ⟨k', v'⟩ := p
    by_cases h : k' = k
    · simp [amodify, h, alookup]
    · simp [amodify, h, alookup, ih]

theorem alookup_amodify_ne {β : Type} {k k' : String} (f : β → β) (l : List (String × β))
    (h : k' ≠ k) : alookup k' (amodify k f l) = alookup k' l := by
  have hks : ¬ (k = k') := fun hk => h hk.symm
  induction l with
  | nil => simp [amodify, alookup]
  | cons p rest ih =>
    obtain ⟨k₀, v₀⟩ := p
    by_cases h0 : k₀ = k
    · subst h0
      simp [amodify, alookup, hks]
    · by_cases h1 : k₀ = k'
      · simp [amodify, h0, alookup, h1, h]
      · simp [amodify, h0, alookup, h1, ih]

theorem keysOf_aset_of_mem {β : Type} {k : String} (v : β) {l : List (String × β)}
    (h : k ∈ keysOf l) : keysOf (aset k v l) = keysOf l := by
  induction l with
  | nil => rw [keysOf_nil] at h; exact absurd h (List.not_mem_nil k)
  | cons p rest ih =>
    obtain ⟨k₀, v₀⟩ := p
    by_cases h0 : k₀ = k
    · simp [aset, h0, keysOf_cons]
    · have hmem : k ∈ keysOf rest := by
        rcases mem_keysOf_cons.mp h with h' | h'
        · exact absurd h'.symm h0
        · exact h'
      simp [aset, h0, keysOf_cons, ih hmem]

theorem keysOf_aset_of_not_mem {β : Type} {k : String} (v : β) {l : List (String × β)}
    (h : k ∉ keysOf l) : keysOf (aset k v l) = keysOf l ++ [k] := by
  induction l with
  | nil => simp [aset, keysOf]
  | cons p rest ih =>
    obtain ⟨k₀, v₀⟩ := p
    have hne : k₀ ≠ k := fun hk => h (mem_keysOf_cons.mpr (Or.inl hk.symm))
    have hrest : k ∉ keysOf rest := fun hk => h (mem_keysOf_cons.mpr (Or.inr hk))
    simp [aset, hne, keysOf_cons, ih hrest]

theorem keysOf_amodify {β : Type} (k : String) (f : β → β) (l : List (String × β)) :
    keysOf (amodify k f l) = keysOf l := by
  induction l with
  | nil => simp [amodify]
  | cons p rest ih =>
    obtain ⟨k₀, v₀⟩ := p
    by_cases h0 : k₀ = k
    · simp [amodify, h0, keysOf_cons]
    · simp [amodify, h0, keysOf_cons, ih]

theorem alookup_isSome_iff_mem {β : Type} (k : String) (l : List (String × β)) :
    (alookup k l).isSome = true ↔ k ∈ keysOf l := by
  induction l with
  | nil => simp [alookup, keysOf]
  | cons p rest ih =>
    obtain ⟨k₀, v₀⟩ := p
    by_cases h0 : k₀ = k
    · simp [alookup, h0, mem_keysOf_cons]
    · rw [mem_keysOf_cons]
      have hne : ¬ k = k₀ := fun hk => h0 hk.symm
      simp [alookup, h0, ih, hne]

theorem alookup_eq_none_iff {β : Type} (k : String) (l : List (String × β)) :
    alookup k l = none ↔ k ∉ keysOf l := by
  rw [← alookup_isSome_iff_mem]
  cases h : alookup k l <;> simp [h]

theorem mem_keysOf_of_alookup {β : Type} {k : String} {l : List (String × β)} {v : β}
    (h : alookup k l = some v) : k ∈ keysOf l := by
  rw [← alookup_isSome_iff_mem, h]; rfl

theorem alookup_isSome_of_mem {β : Type} {k : String} {l : List (String × β)}
    (h : k ∈ keysOf l) : (alookup k l).isSome = true :=
  (alookup_isSome_iff_mem k l).mpr h

theorem alookup_append {β : Type} (k : String) (l l' : List (String × β)) :
    alookup k (l ++ l') = match alookup k l with
      | some v => some v
      | none => alookup k l' := by
  induction l with
  | nil => simp [alookup]
  | cons p rest ih =>
    obtain ⟨k₀, v₀⟩ := p
    by_cases h0 : k₀ = k
    · simp [alookup, h0]
    · simp [alookup, h0, ih]

/-! ## Basic facts about the graph operations -/

theorem mem_keysOf_aset {β : Type} {k' k : String} {v : β} {l : List (String × β)} :
    k' ∈ keysOf (aset k v l) ↔ k' = k ∨ k' ∈ keysOf l := by
  by_cases h : k ∈ keysOf l
  · rw [keysOf_aset_of_mem v h]
    constructor
    · exact Or.inr
    · rintro (rfl | h')
      · exact h
      · exact h'
  · rw [keysOf_aset_of_not_mem v h, List.mem_append, List.mem_singleton]
    tauto

theorem addEdge_nodes {E : Type} (st : GraphRAG E) (a b : String) (w : ℚ) :
    (addEdge st a b w).nodes = st.nodes := rfl

theorem addEdge_embeddings {E : Type} (st : GraphRAG E) (a b : String) (w : ℚ) :
    (addEdge st a b w).embeddings = st.embeddings := rfl

theorem addEdge_texts {E : Type} (st : GraphRAG E) (a b : String) (w : ℚ) :
    (addEdge st a b w).texts = st.texts := rfl

theorem addEdge_adj_of_mem {E : Type} {st : GraphRAG E} {a b : String} (w : ℚ)
    (ha : a ∈ keysOf st.adj) (hb : b ∈ keysOf st.adj) :
    (addEdge st a b w).adj = amodify b (aset a w) (amodify a (aset b w) st.adj) := by
  simp [addEdge, ha, hb]

theorem addEdge_adj_keys {E : Type} {st : GraphRAG E} {a b : String} (w : ℚ)
    (ha : a ∈ keysOf st.adj) (hb : b ∈ keysOf st.adj) :
    keysOf (addEdge st a b w).adj = keysOf st.adj := by
  rw [addEdge_adj_of_mem w ha hb, keysOf_amodify, keysOf_amodify]

theorem addEdge_alookup_fst {E : Type} {st : GraphRAG E} {a b : String} (w : ℚ)
    (ha : a ∈ keysOf st.adj) (hb : b ∈ keysOf st.adj) (hab : a ≠ b) :
    alookup a (addEdge st a b w).adj = (alookup a st.adj).map (aset b w) := by
  rw [addEdge_adj_of_mem w ha hb, alookup_amodify_ne _ _ hab, alookup_amodify_self]

theorem addEdge_alookup_snd {E : Type} {st : GraphRAG E} {a b : String} (w : ℚ)
    (ha : a ∈ keysOf st.adj) (hb : b ∈ keysOf st.adj) (hab : a ≠ b) :
    alookup b (addEdge st a b w).adj = (alookup b st.adj).map (aset a w) := by
  rw [addEdge_adj_of_mem w ha hb, alookup_amodify_self,
    alookup_amodify_ne _ _ (fun h => hab h.symm)]

theorem addEdge_alookup_other {E : Type} {st : GraphRAG E} {a b k : String} (w : ℚ)
    (ha : a ∈ keysOf st.adj) (hb : b ∈ keysOf st.adj) (hka : k ≠ a) (hkb : k ≠ b) :
    alookup k (addEdge st a b w).adj = alookup k st.adj := by
  rw [addEdge_adj_of_mem w ha hb, alookup_amodify_ne _ _ hkb, alookup_amodify_ne _ _ hka]

theorem addEdges_nodes {E : Type} (sim : E → E → ℚ) (docId : String) (emb : E) :
    ∀ (entries : List (String × E)) (st : GraphRAG E),
      (addEdges sim docId emb entries st).nodes = st.nodes := by
  intro entries
  induction entries with
  | nil => intro st; rfl
  | cons p rest ih =>
    intro st
    obtain ⟨eid, eemb⟩ := p
    by_cases h : eid = docId
    · simp [addEdges, h, ih]
    · by_cases h' : (0.7 : ℚ) < sim emb eemb
      · simp [addEdges, h, h', ih, addEdge_nodes]
      · simp [addEdges, h, h', ih]

theorem addEdges_embeddings {E : Type} (sim : E → E → ℚ) (docId : String) (emb : E) :
    ∀ (entries : List (String × E)) (st : GraphRAG E),
      (addEdges sim docId emb entries st).embeddings = st.embeddings := by
  intro entries
  induction entries with
  | nil => intro st; rfl
  | cons p rest ih =>
    intro st
    obtain ⟨eid, eemb⟩ := p
    by_cases h : eid = docId
    · simp [addEdges, h, ih]
    · by_cases h' : (0.7 : ℚ) < sim emb eemb
      · simp [addEdges, h, h', ih, addEdge_embeddings]
      · simp [addEdges, h, h', ih]

theorem addEdges_texts {E : Type} (sim : E → E → ℚ) (docId : String) (emb : E) :
    ∀ (entries : List (String × E)) (st : GraphRAG E),
      (addEdges sim docId emb entries st).texts = st.texts := by
  intro entries
  induction entries with
  | nil => intro st; rfl
  | cons p rest ih =>
    intro st
    obtain ⟨eid, eemb⟩ := p
    by_cases h : eid = docId
    · simp [addEdges, h, ih]
    · by_cases h' : (0.7 : ℚ) < sim emb eemb
      · simp [addEdges, h, h', ih, addEdge_texts]
      · simp [addEdges, h, h', ih]

theorem addEdges_adj_keys {E : Type} (sim : E → E → ℚ) (docId : String) (emb : E) :
    ∀ (entries : List (String × E)) (st : GraphRAG E),
      docId ∈ keysOf st.adj → (∀ p ∈ entries, p.1 ∈ keysOf st.adj) →
      keysOf (addEdges sim docId emb entries st).adj = keysOf st.adj := by
  intro entries
  induction entries with
  | nil => intro st _ _; rfl
  | cons p rest ih =>
    intro st hdoc hall
    obtain ⟨eid, eemb⟩ := p
    have heid : eid ∈ keysOf st.adj := hall (eid, eemb) (List.mem_cons_self _ _)
    have hrest : ∀ p ∈ rest, p.1 ∈ keysOf st.adj :=
      fun p hp => hall p (List.mem_cons_of_mem _ hp)
    by_cases h : eid = docId
    · simpa [addEdges, h] using ih st hdoc hrest
    · by_cases h' : (0.7 : ℚ) < sim emb eemb
      · have hkeys := addEdge_adj_keys (sim emb eemb) hdoc heid
        have hdoc' : docId ∈ keysOf (addEdge st docId eid (sim emb eemb)).adj := by
          rw [hkeys]; exact hdoc
        have hrest' : ∀ p ∈ rest, p.1 ∈ keysOf (addEdge st docId eid (sim emb eemb)).adj := by
          intro p hp; rw [hkeys]; exact hrest p hp
        have := ih (addEdge st docId eid (sim emb eemb)) hdoc' hrest'
        simpa [addEdges, h, h', hkeys] using this
      · simpa [addEdges, h, h'] using ih st hdoc hrest

theorem WF_empty {E : Type} : WF (GraphRAG.empty : GraphRAG E) := by
  refine ⟨⟨rfl, rfl, rfl⟩, List.nodup_nil, ?_, ?_⟩
  · intro k row h; cases h
  · intro k row h; cases h

theorem addEdge_NoSelf {E : Type} {st : GraphRAG E} {a b : String} (w : ℚ)
    (ha : a ∈ keysOf st.adj) (hb : b ∈ keysOf st.adj) (hab : a ≠ b)
    (hns : NoSelf st) : NoSelf (addEdge st a b w) := by
  intro k row hrow
  by_cases hka : k = a
  · subst hka
    rw [addEdge_alookup_fst w ha hb hab] at hrow
    cases h0 : alookup k st.adj with
    | none => rw [h0] at hrow; cases hrow
    | some row0 =>
      rw [h0] at hrow
      injection hrow with hrow
      subst hrow
      intro hmem
      rcases mem_keysOf_aset.mp hmem with h | h
      · exact hab h
      · exact hns k row0 h0 h
  · by_cases hkb : k = b
    · subst hkb
      rw [addEdge_alookup_snd w ha hb hab] at hrow
      cases h0 : alookup k st.adj with
      | none => rw [h0] at hrow; cases hrow
      | some row0 =>
        rw [h0] at hrow
        injection hrow with hrow
        subst hrow
        intro hmem
        rcases mem_keysOf_aset.mp hmem with h | h
        · exact hab h.symm
        · exact hns k row0 h0 h
    · rw [addEdge_alookup_other w ha hb hka hkb] at hrow
      exact hns k row hrow

theorem addEdge_NbrNodes {E : Type} {st : GraphRAG E} {a b : String} (w : ℚ)
    (ha : a ∈ keysOf st.adj) (hb : b ∈ keysOf st.adj) (hab : a ≠ b)
    (hnb : NbrNodes st) : NbrNodes (addEdge st a b w) := by
  have hkeys := addEdge_adj_keys w ha hb
  intro k row hrow n hn
  rw [hkeys]
  by_cases hka : k = a
  · subst hka
    rw [addEdge_alookup_fst w ha hb hab] at hrow
    cases h0 : alookup k st.adj with
    | none => rw [h0] at hrow; cases hrow
    | some row0 =>
      rw [h0] at hrow
      injection hrow with hrow
      subst hrow
      rcases mem_keysOf_aset.mp hn with h | h
      · subst h; exact hb
      · exact hnb k row0 h0 n h
  · by_cases hkb : k = b
    · subst hkb
      rw [addEdge_alookup_snd w ha hb hab] at hrow
      cases h0 : alookup k st.adj with
      | none => rw [h0] at hrow; cases hrow
      | some row0 =>
        rw [h0] at hrow
        injection hrow with hrow
        subst hrow
        rcases mem_keysOf_aset.mp hn with h | h
        · subst h; exact ha
        · exact hnb k row0 h0 n h
    · rw [addEdge_alookup_other w ha hb hka hkb] at hrow
      exact hnb k row hrow n hn

theorem addEdges_NoSelf_NbrNodes {E : Type} (sim : E → E → ℚ) (docId : String) (emb : E) :
    ∀ (entries : List (String × E)) (st : GraphRAG E),
      docId ∈ keysOf st.adj → (∀ p ∈ entries, p.1 ∈ keysOf st.adj) →
      NoSelf st → NbrNodes st →
      NoSelf (addEdges sim docId emb entries st) ∧
      NbrNodes (addEdges sim docId emb entries st) := by
  intro entries
  induction entries with
  | nil => intro st _ _ hns hnb; exact ⟨hns, hnb⟩
  | cons p rest ih =>
    intro st hdoc hall hns hnb
    obtain ⟨eid, eemb⟩ := p
    have heid : eid ∈ keysOf st.adj := hall (eid, eemb) (List.mem_cons_self _ _)
    have hrest : ∀ p ∈ rest, p.1 ∈ keysOf st.adj :=
      fun p hp => hall p (List.mem_cons_of_mem _ hp)
    by_cases h : eid = docId
    · have := ih st hdoc hrest hns hnb
      simpa [addEdges, h] using this
    · by_cases h' : (0.7 : ℚ) < sim emb eemb
      · have hab : docId ≠ eid := fun hx => h hx.symm
        have hkeys := addEdge_adj_keys (sim emb eemb) hdoc heid
        have hdoc' : docId ∈ keysOf (addEdge st docId eid (sim emb eemb)).adj := by
          rw [hkeys]; exact hdoc
        have hrest' : ∀ p ∈ rest, p.1 ∈ keysOf (addEdge st docId eid (sim emb eemb)).adj := by
          intro p hp; rw [hkeys]; exact hrest p hp
        have hns' := addEdge_NoSelf (sim emb eemb) hdoc heid hab hns
        have hnb' := addEdge_NbrNodes (sim emb eemb) hdoc heid hab hnb
        have := ih (addEdge st docId eid (sim emb eemb)) hdoc' hrest' hns' hnb'
        simpa [addEdges, h, h'] using this
      · have := ih st hdoc hrest hns hnb
        simpa [addEdges, h, h'] using this

theorem fst_mem_keysOf {β : Type} {p : String × β} {l : List (String × β)} (h : p ∈ l) :
    p.1 ∈ keysOf l := List.mem_map_of_mem Prod.fst h

theorem WF_addEdges {E : Type} (sim : E → E → ℚ) (docId : String) (emb : E)
    (st2 : GraphRAG E) (hwf2 : WF st2) (hdoc : docId ∈ keysOf st2.adj) :
    WF (addEdges sim docId emb st2.embeddings st2) := by
  obtain ⟨⟨hemb, htex, hadj⟩, hnd, hns, hnb⟩ := hwf2
  have hentries : ∀ p ∈ st2.embeddings, p.1 ∈ keysOf st2.adj := by
    intro p hp
    have : p.1 ∈ keysOf st2.embeddings := fst_mem_keysOf hp
    rw [hemb] at this
    rw [hadj]
    exact this
  have hkeys := addEdges_adj_keys sim docId emb st2.embeddings st2 hdoc hentries
  have hnsnb := addEdges_NoSelf_NbrNodes sim docId emb st2.embeddings st2 hdoc hentries hns hnb
  refine ⟨⟨?_, ?_, ?_⟩, ?_, hnsnb.1, hnsnb.2⟩
  · rw [addEdges_embeddings, addEdges_nodes]; exact hemb
  · rw [addEdges_texts, addEdges_nodes]; exact htex
  · rw [hkeys, addEdges_nodes]; exact hadj
  · unfold KeysNodup
    rw [addEdges_nodes]
    exact hnd

theorem addDocument_unfold {E : Type} (sim : E → E → ℚ) (st : GraphRAG E)
    (docId text : String) (emb : E) (md : Option (List (String × String))) :
    addDocument sim st docId text emb md
      = addEdges sim docId emb (aset docId emb st.embeddings)
          { nodes := aset docId ⟨text, md.getD []⟩ st.nodes,
            adj := if docId ∈ keysOf st.adj then st.adj else st.adj ++ [(docId, [])],
            embeddings := aset docId emb st.embeddings,
            texts := aset docId text st.texts } := rfl

theorem WF_addDocument {E : Type} (sim : E → E → ℚ) (st : GraphRAG E)
    (docId text : String) (emb : E) (md : Option (List (String × String)))
    (hwf : WF st) : WF (addDocument sim st docId text emb md) := by
  obtain ⟨⟨hemb, htex, hadj⟩, hnd, hns, hnb⟩ := hwf
  rw [addDocument_unfold]
  by_cases hmem : docId ∈ keysOf st.nodes
  · have hmemA : docId ∈ keysOf st.adj := by rw [hadj]; exact hmem
    have hmemE : docId ∈ keysOf st.embeddings := by rw [hemb]; exact hmem
    have hmemT : docId ∈ keysOf st.texts := by rw [htex]; exact hmem
    refine WF_addEdges sim docId emb
      { nodes := aset docId ⟨text, md.getD []⟩ st.nodes,
        adj := if docId ∈ keysOf st.adj then st.adj else st.adj ++ [(docId, [])],
        embeddings := aset docId emb st.embeddings,
        texts := aset docId text st.texts } ?_ ?_
    · refine ⟨⟨?_, ?_, ?_⟩, ?_, ?_, ?_⟩
      · simp only [keysOf_aset_of_mem _ hmemE, keysOf_aset_of_mem _ hmem]; exact hemb
      · simp only [keysOf_aset_of_mem _ hmemT, keysOf_aset_of_mem _ hmem]; exact htex
      · simp only [if_pos hmemA, keysOf_aset_of_mem _ hmem]; exact hadj
      · unfold KeysNodup
        simp only [keysOf_aset_of_mem _ hmem]
        exact hnd
      · intro k row h
        simp only [if_pos hmemA] at h
        exact hns k row h
      · intro k row h n hn
        simp only [if_pos hmemA] at h ⊢
        exact hnb k row h n hn
    · simp only [if_pos hmemA]
      exact hmemA
  · have hmemA : docId ∉ keysOf st.adj := by rw [hadj]; exact hmem
    have hmemE : docId ∉ keysOf st.embeddings := by rw [hemb]; exact hmem
    have hmemT : docId ∉ keysOf st.texts := by rw [htex]; exact hmem
    refine WF_addEdges sim docId emb
      { nodes := aset docId ⟨text, md.getD []⟩ st.nodes,
        adj := if docId ∈ keysOf st.adj then st.adj else st.adj ++ [(docId, [])],
        embeddings := aset docId emb st.embeddings,
        texts := aset docId text st.texts } ?_ ?_
    · refine ⟨⟨?_, ?_, ?_⟩, ?_, ?_, ?_⟩
      · simp only [keysOf_aset_of_not_mem _ hmemE, keysOf_aset_of_not_mem _ hmem, hemb]
      · simp only [keysOf_aset_of_not_mem _ hmemT, keysOf_aset_of_not_mem _ hmem, htex]
      · rw [if_neg hmemA, keysOf_append, hadj, keysOf_aset_of_not_mem _ hmem]
        rfl
      · unfold KeysNodup
        simp only [keysOf_aset_of_not_mem _ hmem]
        exact List.Nodup.append hnd (List.nodup_singleton docId)
          (List.disjoint_singleton.mpr hmem)
      · intro k row h
        simp only [if_neg hmemA] at h
        rw [alookup_append] at h
        cases h0 : alookup k st.adj with
        | some row0 =>
          rw [h0] at h
          injection h with h
          subst h
          exact hns k row0 h0
        | none =>
          rw [h0] at h
          simp only [alookup] at h
          by_cases hk : docId = k
          · rw [if_pos hk] at h
            injection h with h
            subst h
            simp [keysOf]
          · rw [if_neg hk] at h
            cases h
      · intro k row h n hn
        simp only [if_neg hmemA] at h ⊢
        rw [alookup_append] at h
        rw [keysOf_append]
        cases h0 : alookup k st.adj with
        | some row0 =>
          rw [h0] at h
          injection h with h
          subst h
          exact List.mem_append_left _ (hnb k row0 h0 n hn)
        | none =>
          rw [h0] at h
          simp only [alookup] at h
          by_cases hk : docId = k
          · rw [if_pos hk] at h
            injection h with h
            subst h
            simp [keysOf] at hn
          · rw [if_neg hk] at h
            cases h
    · simp only [if_neg hmemA, keysOf_append]
      exact List.mem_append_right _ (by simp [keysOf])

theorem WF_foldOps {E : Type} (sim : E → E → ℚ) :
    ∀ (ops : List (DocOp E)) (st : GraphRAG E), WF st →
      WF (ops.foldl (fun s op => addDocument sim s op.docId op.text op.emb op.md) st) := by
  intro ops
  induction ops with
  | nil => intro st h; exact h
  | cons op rest ih =>
    intro st h
    exact ih _ (WF_addDocument sim st op.docId op.text op.emb op.md h)

theorem WF_replay {E : Type} (sim : E → E → ℚ) (ops : List (DocOp E)) :
    WF (replay sim ops) :=
  WF_foldOps sim ops GraphRAG.empty WF_empty

theorem relFromAdj_total {E : Type} (st : GraphRAG E) :
    ∀ (row : List (String × ℚ)),
      (∀ n ∈ keysOf row, (alookup n st.texts).isSome = true ∧
        (alookup n st.nodes).isSome = true) →
      ∃ rels, relFromAdj st row = some rels ∧
        rels.map (fun r => r.id) = keysOf row ∧
        rels.map (fun r => r.similarity) = row.map Prod.snd := by
  intro row
  induction row with
  | nil => intro _; exact ⟨[], rfl, rfl, rfl⟩
  | cons p rest ih =>
    intro h
    obtain ⟨n, w⟩ := p
    have hn := h n (mem_keysOf_cons.mpr (Or.inl rfl))
    obtain ⟨t, ht⟩ := Option.isSome_iff_exists.mp hn.1
    obtain ⟨nd, hnd⟩ := Option.isSome_iff_exists.mp hn.2
    obtain ⟨rels, hr, hids, hsims⟩ := ih (fun m hm => h m (mem_keysOf_cons.mpr (Or.inr hm)))
    refine ⟨{ id := n, text := t, similarity := w, metadata := nd.metadata } :: rels, ?_, ?_, ?_⟩
    · simp [relFromAdj, ht, hnd, hr]
    · simp [hids, keysOf_cons]
    · simp [hsims]

theorem getDocumentRelationships_isSome {E : Type} {st : GraphRAG E} (hwf : WF st)
    (d : String) : (getDocumentRelationships st d).isSome = true := by
  obtain ⟨⟨hemb, htex, hadj⟩, _, _, hnb⟩ := hwf
  unfold getDocumentRelationships
  cases h : alookup d st.adj with
  | none => rfl
  | some row =>
    have hrow : ∀ n ∈ keysOf row, (alookup n st.texts).isSome = true ∧
        (alookup n st.nodes).isSome = true := by
      intro n hn
      have hmem : n ∈ keysOf st.adj := hnb d row h n hn
      rw [hadj] at hmem
      constructor
      · exact alookup_isSome_of_mem (by rw [htex]; exact hmem)
      · exact alookup_isSome_of_mem hmem
    obtain ⟨rels, hr, _, _⟩ := relFromAdj_total st row hrow
    simp [hr]

theorem addDocument_texts {E : Type} (sim : E → E → ℚ) (st : GraphRAG E)
    (docId text : String) (emb : E) (md : Option (List (String × String))) :
    (addDocument sim st docId text emb md).texts = aset docId text st.texts := by
  rw [addDocument_unfold, addEdges_texts]

theorem addDocument_embeddings {E : Type} (sim : E → E → ℚ) (st : GraphRAG E)
    (docId text : String) (emb : E) (md : Option (List (String × String))) :
    (addDocument sim st docId text emb md).embeddings = aset docId emb st.embeddings := by
  rw [addDocument_unfold, addEdges_embeddings]

theorem addDocument_nodes {E : Type} (sim : E → E → ℚ) (st : GraphRAG E)
    (docId text : String) (emb : E) (md : Option (List (String × String))) :
    (addDocument sim st docId text emb md).nodes
      = aset docId ⟨text, md.getD []⟩ st.nodes := by
  rw [addDocument_unfold, addEdges_nodes]

theorem collectNeighbors_zero {E : Type} (st : GraphRAG E) (docs : List String) :
    collectNeighbors st docs 0 = ∅ := by
  unfold collectNeighbors
  have : ∀ (ds : List String) (acc : Finset String),
      ds.foldl (fun acc d => if isNode st d then exploreFrom st 0 {d} acc else acc) acc = acc := by
    intro ds
    induction ds with
    | nil => intro acc; rfl
    | cons d rest ih =>
      intro acc
      show rest.foldl _ (if isNode st d then exploreFrom st 0 {d} acc else acc) = acc
      have hsame : (if isNode st d then exploreFrom st 0 {d} acc else acc) = acc := by
        by_cases h : isNode st d <;> simp [h, exploreFrom]
      rw [hsame, ih]
  exact this docs ∅

/-! ## Stable descending sort: order facts -/

theorem mem_insertDescBy {α : Type} (key : α → ℚ) (x : α) :
    ∀ (l : List α) (a : α), a ∈ insertDescBy key x l ↔ a = x ∨ a ∈ l := by
  intro l
  induction l with
  | nil => intro a; simp [insertDescBy]
  | cons y ys ih =>
    intro a
    by_cases h : key y ≤ key x
    · simp [insertDescBy, h]
    · simp only [insertDescBy, if_neg h, List.mem_cons, ih]
      tauto

theorem mem_sortDescBy {α : Type} (key : α → ℚ) :
    ∀ (l : List α) (a : α), a ∈ sortDescBy key l ↔ a ∈ l := by
  intro l
  induction l with
  | nil => intro a; simp [sortDescBy]
  | cons x xs ih =>
    intro a
    simp only [sortDescBy, mem_insertDescBy, List.mem_cons, ih]

theorem insertDescBy_ne_nil {α : Type} (key : α → ℚ) (x : α) (l : List α) :
    insertDescBy key x l ≠ [] := by
  cases l with
  | nil => simp [insertDescBy]
  | cons y ys =>
    by_cases h : key y ≤ key x <;> simp [insertDescBy, h]

theorem sortDescBy_ne_nil {α : Type} (key : α → ℚ) (x : α) (xs : List α) :
    sortDescBy key (x :: xs) ≠ [] := by
  show insertDescBy key x (sortDescBy key xs) ≠ []
  exact insertDescBy_ne_nil key x _

/-- Stability of the insertion step: inserting `x`, which originally preceded every
element of `s`, into a list sorted by the combined relation keeps the combined
relation, where `Q` records original (insertion) order. -/
theorem insertDescBy_pairwise {α : Type} (key : α → ℚ) (Q : α → α → Prop) (x : α) :
    ∀ (s : List α),
      s.Pairwise (fun a b => key b ≤ key a ∧ (key a ≤ key b → Q a b)) →
      (∀ y ∈ s, Q x y) →
      (insertDescBy key x s).Pairwise (fun a b => key b ≤ key a ∧ (key a ≤ key b → Q a b)) := by
  intro s
  induction s with
  | nil => intro _ _; simp [insertDescBy]
  | cons y ys ih =>
    intro hp hq
    rw [List.pairwise_cons] at hp
    obtain ⟨hy, hys⟩ := hp
    by_cases h : key y ≤ key x
    · rw [insertDescBy, if_pos h, List.pairwise_cons]
      constructor
      · intro z hz
        rcases List.mem_cons.mp hz with rfl | hz'
        · exact ⟨h, fun _ => hq z (List.mem_cons_self _ _)⟩
        · have hzy := hy z hz'
          refine ⟨le_trans hzy.1 h, fun hxz => ?_⟩
          exact hq z (List.mem_cons_of_mem _ hz')
      · rw [List.pairwise_cons]
        exact ⟨hy, hys⟩
    · rw [insertDescBy, if_neg h, List.pairwise_cons]
      push_neg at h
      constructor
      · intro z hz
        rcases (mem_insertDescBy key x ys z).mp hz with rfl | hz'
        · exact ⟨le_of_lt h, fun hyx => absurd (lt_of_le_of_lt hyx h) (lt_irrefl _)⟩
        · exact hy z hz'
      · exact ih hys (fun z hz => hq z (List.mem_cons_of_mem _ hz))

/-- A stable descending sort of a list whose original order satisfies `Q` is sorted
descending by key, and any two entries with equal keys keep the original order `Q`. -/
theorem sortDescBy_pairwise {α : Type} (key : α → ℚ) (Q : α → α → Prop) :
    ∀ (l : List α), l.Pairwise Q →
      (sortDescBy key l).Pairwise (fun a b => key b ≤ key a ∧ (key a ≤ key b → Q a b)) := by
  intro l
  induction l with
  | nil => intro _; simp [sortDescBy]
  | cons x xs ih =>
    intro hp
    rw [List.pairwise_cons] at hp
    obtain ⟨hx, hxs⟩ := hp
    show (insertDescBy key x (sortDescBy key xs)).Pairwise _
    refine insertDescBy_pairwise key Q x _ (ih hxs) ?_
    intro y hy
    exact hx y ((mem_sortDescBy key xs y).mp hy)

/-- The head of a stable descending sort carries a maximal key. -/
theorem sortDescBy_head_max {α : Type} (key : α → ℚ) (l : List α) (t : α) (rest : List α)
    (h : sortDescBy key l = t :: rest) : ∀ a ∈ l, key a ≤ key t := by
  intro a ha
  have hp := sortDescBy_pairwise key (fun _ _ => True) l
    (List.pairwise_iff_forall_sublist.mpr (fun _ => trivial))
  rw [h, List.pairwise_cons] at hp
  have hmem : a ∈ sortDescBy key l := (mem_sortDescBy key l a).mpr ha
  rw [h, List.mem_cons] at hmem
  rcases hmem with rfl | hmem'
  · exact le_refl _
  · exact (hp.1 a hmem').1

/-- The head of a stable descending sort is an element of the input list. -/
theorem sortDescBy_head_mem {α : Type} (key : α → ℚ) (l : List α) (t : α) (rest : List α)
    (h : sortDescBy key l = t :: rest) : t ∈ l := by
  have : t ∈ sortDescBy key l := by rw [h]; exact List.mem_cons_self _ _
  exact (mem_sortDescBy key l t).mp this

/-! ## Adjacency order invariant (claim C9): neighbors appear in node-insertion order -/

theorem aset_of_not_mem {β : Type} {k : String} (v : β) {l : List (String × β)}
    (h : k ∉ keysOf l) : aset k v l = l ++ [(k, v)] := by
  induction l with
  | nil => rfl
  | cons p rest ih =>
    obtain ⟨k₀, v₀⟩ := p
    have hne : k₀ ≠ k := fun hk => h (mem_keysOf_cons.mpr (Or.inl hk.symm))
    have hrest : k ∉ keysOf rest := fun hk => h (mem_keysOf_cons.mpr (Or.inr hk))
    simp [aset, hne, ih hrest]

theorem addEdges_append {E : Type} (sim : E → E → ℚ) (docId : String) (emb : E) :
    ∀ (l₁ l₂ : List (String × E)) (st : GraphRAG E),
      addEdges sim docId emb (l₁ ++ l₂) st
        = addEdges sim docId emb l₂ (addEdges sim docId emb l₁ st) := by
  intro l₁
  induction l₁ with
  | nil => intro l₂ st; rfl
  | cons p rest ih =>
    intro l₂ st
    obtain ⟨eid, eemb⟩ := p
    show addEdges sim docId emb (rest ++ l₂) _ = _
    rw [ih]
    rfl

theorem addEdges_self_singleton {E : Type} (sim : E → E → ℚ) (docId : String) (emb e : E)
    (st : GraphRAG E) : addEdges sim docId emb [(docId, e)] st = st := by
  simp [addEdges]

theorem addEdges_ordered_aux {E : Type} (sim : E → E → ℚ) (docId : String) (emb : E)
    (N : List String) (hNnd : N.Nodup) (hNdoc : docId ∉ N) :
    ∀ (entries : List (String × E)) (st : GraphRAG E) (ld : List (String × ℚ)),
      keysOf st.adj = N ++ [docId] →
      (∀ p ∈ entries, p.1 ∈ N) →
      alookup docId st.adj = some ld →
      List.Sublist (keysOf ld ++ keysOf entries) N →
      (∀ k row, k ≠ docId → alookup k st.adj = some row →
        List.Sublist (keysOf row) (N ++ [docId]) ∧
        (k ∈ keysOf entries → List.Sublist (keysOf row) N)) →
      ∃ ld', alookup docId (addEdges sim docId emb entries st).adj = some ld' ∧
        List.Sublist (keysOf ld') N ∧
        (∀ k row, k ≠ docId → alookup k (addEdges sim docId emb entries st).adj = some row →
          List.Sublist (keysOf row) (N ++ [docId])) := by
  intro entries
  induction entries with
  | nil =>
    intro st ld _ _ hdocrow hsub hrows
    refine ⟨ld, hdocrow, ?_, ?_⟩
    · rw [keysOf_nil, List.append_nil] at hsub
      exact hsub
    · intro k row hk hrow
      exact (hrows k row hk hrow).1
  | cons p rest ih =>
    intro st ld hadj hall hdocrow hsub hrows
    obtain ⟨eid, eemb⟩ := p
    have heidN : eid ∈ N := hall (eid, eemb) (List.mem_cons_self _ _)
    have heid_ne : eid ≠ docId := fun h => hNdoc (h ▸ heidN)
    have hall' : ∀ p ∈ rest, p.1 ∈ N := fun p hp => hall p (List.mem_cons_of_mem _ hp)
    have hkeys_cons : keysOf ((eid, eemb) :: rest) = eid :: keysOf rest := rfl
    -- the combined processed/unprocessed key list is a Nodup sublist of N
    have hsubnd : (keysOf ld ++ eid :: keysOf rest).Nodup := by
      refine List.Nodup.sublist ?_ hNnd
      rw [hkeys_cons] at hsub
      exact hsub
    have heid_not_ld : eid ∉ keysOf ld := by
      intro hmem
      rw [List.nodup_append] at hsubnd
      exact hsubnd.2.2 hmem (List.mem_cons_self _ _)
    have heid_not_rest : eid ∉ keysOf rest := by
      rw [List.nodup_append] at hsubnd
      have := hsubnd.2.1
      rw [List.nodup_cons] at this
      exact this.1
    by_cases hthr : (0.7 : ℚ) < sim emb eemb
    · -- an edge docId ~ eid is added
      set w := sim emb eemb with hw
      have hdocA : docId ∈ keysOf st.adj := by
        rw [hadj]; exact List.mem_append_right _ (List.mem_singleton.mpr rfl)
      have heidA : eid ∈ keysOf st.adj := by
        rw [hadj]; exact List.mem_append_left _ heidN
      have hne : docId ≠ eid := fun h => heid_ne h.symm
      have hstep : addEdges sim docId emb ((eid, eemb) :: rest) st
          = addEdges sim docId emb rest (addEdge st docId eid w) := by
        simp [addEdges, heid_ne, hthr, hw]
      rw [hstep]
      -- facts about the post-edge state
      have hkeys' := addEdge_adj_keys w hdocA heidA
      have hadj' : keysOf (addEdge st docId eid w).adj = N ++ [docId] := by
        rw [hkeys', hadj]
      have hdocrow' : alookup docId (addEdge st docId eid w).adj
          = some (aset eid w ld) := by
        rw [addEdge_alookup_fst w hdocA heidA hne, hdocrow]
        rfl
      have hldkeys : keysOf (aset eid w ld) = keysOf ld ++ [eid] :=
        keysOf_aset_of_not_mem w heid_not_ld
      have hsub' : List.Sublist (keysOf (aset eid w ld) ++ keysOf rest) N := by
        rw [hldkeys, List.append_assoc]
        rw [hkeys_cons] at hsub
        simpa using hsub
      -- the row of eid gains docId at its end
      obtain ⟨rowe, hrowe⟩ := Option.isSome_iff_exists.mp (alookup_isSome_of_mem heidA)
      have hrowe' : alookup eid (addEdge st docId eid w).adj
          = some (aset docId w rowe) := by
        rw [addEdge_alookup_snd w hdocA heidA hne, hrowe]
        rfl
      have hrowe_strong : List.Sublist (keysOf rowe) N :=
        (hrows eid rowe heid_ne hrowe).2 (by rw [hkeys_cons]; exact List.mem_cons_self _ _)
      have hdoc_not_rowe : docId ∉ keysOf rowe := fun hm => hNdoc (hrowe_strong.subset hm)
      have hrowe_keys : keysOf (aset docId w rowe) = keysOf rowe ++ [docId] :=
        keysOf_aset_of_not_mem w hdoc_not_rowe
      have hrows' : ∀ k row, k ≠ docId → alookup k (addEdge st docId eid w).adj = some row →
          List.Sublist (keysOf row) (N ++ [docId]) ∧
          (k ∈ keysOf rest → List.Sublist (keysOf row) N) := by
        intro k row hk hrow
        by_cases hke : k = eid
        · subst hke
          rw [hrowe'] at hrow
          injection hrow with hrow
          subst hrow
          constructor
          · rw [hrowe_keys]
            exact List.Sublist.append hrowe_strong (List.Sublist.refl _)
          · intro hmem
            exact absurd hmem heid_not_rest
        · rw [addEdge_alookup_other w hdocA heidA hk hke] at hrow
          have h0 := hrows k row hk hrow
          refine ⟨h0.1, fun hmem => h0.2 ?_⟩
          rw [hkeys_cons]
          exact List.mem_cons_of_mem _ hmem
      exact ih (addEdge st docId eid w) (aset eid w ld) hadj' hall' hdocrow' hsub' hrows'
    · -- no edge: the state is unchanged, only the pending entry list shrinks
      have hstep : addEdges sim docId emb ((eid, eemb) :: rest) st
          = addEdges sim docId emb rest st := by
        simp [addEdges, heid_ne, hthr]
      rw [hstep]
      have hsub' : List.Sublist (keysOf ld ++ keysOf rest) N := by
        have hmid : List.Sublist (keysOf ld ++ keysOf rest) (keysOf ld ++ eid :: keysOf rest) :=
          List.Sublist.append_left (List.sublist_cons_self eid (keysOf rest)) (keysOf ld)
        have hsub2 : List.Sublist (keysOf ld ++ eid :: keysOf rest) N := hsub
        exact List.Sublist.trans hmid hsub2
      have hrows' : ∀ k row, k ≠ docId → alookup k st.adj = some row →
          List.Sublist (keysOf row) (N ++ [docId]) ∧
          (k ∈ keysOf rest → List.Sublist (keysOf row) N) := by
        intro k row hk hrow
        have h0 := hrows k row hk hrow
        refine ⟨h0.1, fun hmem => h0.2 ?_⟩
        rw [hkeys_cons]
        exact List.mem_cons_of_mem _ hmem
      exact ih st ld hadj hall' hdocrow hsub' hrows'

theorem nodeKeys_addDocument_fresh {E : Type} (sim : E → E → ℚ) (st : GraphRAG E)
    (docId text : String) (emb : E) (md : Option (List (String × String)))
    (hfresh : docId ∉ keysOf st.nodes) :
    keysOf (addDocument sim st docId text emb md).nodes = keysOf st.nodes ++ [docId] := by
  rw [addDocument_nodes, keysOf_aset_of_not_mem _ hfresh]

theorem AdjOrdered_addDocument {E : Type} (sim : E → E → ℚ) (st : GraphRAG E)
    (docId text : String) (emb : E) (md : Option (List (String × String)))
    (hwf : WF st) (hord : AdjOrdered st) (hfresh : docId ∉ keysOf st.nodes) :
    AdjOrdered (addDocument sim st docId text emb md) := by
  obtain ⟨⟨hemb, htex, hadj⟩, hnd, hns, hnb⟩ := hwf
  have hfreshA : docId ∉ keysOf st.adj := by rw [hadj]; exact hfresh
  have hfreshE : docId ∉ keysOf st.embeddings := by rw [hemb]; exact hfresh
  have hnodes' := nodeKeys_addDocument_fresh sim st docId text emb md hfresh
  rw [addDocument_unfold]
  rw [addDocument_unfold, addEdges_nodes] at hnodes'
  -- split off the trailing (docId, emb) entry, which the loop skips
  have hembsplit : aset docId emb st.embeddings = st.embeddings ++ [(docId, emb)] :=
    aset_of_not_mem emb hfreshE
  rw [hembsplit, addEdges_append, addEdges_self_singleton]
  set st2 : GraphRAG E :=
    { nodes := aset docId ⟨text, md.getD []⟩ st.nodes,
      adj := if docId ∈ keysOf st.adj then st.adj else st.adj ++ [(docId, [])],
      embeddings := st.embeddings ++ [(docId, emb)],
      texts := aset docId text st.texts } with hst2
  have hadj2 : st2.adj = st.adj ++ [(docId, [])] := by
    rw [hst2]
    simp [if_neg hfreshA]
  have hadjkeys2 : keysOf st2.adj = keysOf st.nodes ++ [docId] := by
    rw [hadj2, keysOf_append, hadj]
    rfl
  have hdocrow2 : alookup docId st2.adj = some [] := by
    rw [hadj2, alookup_append, (alookup_eq_none_iff _ _).mpr hfreshA]
    simp [alookup]
  have hrows2 : ∀ k row, k ≠ docId → alookup k st2.adj = some row →
      alookup k st.adj = some row := by
    intro k row hk hrow
    rw [hadj2, alookup_append] at hrow
    cases h0 : alookup k st.adj with
    | some row0 => rw [h0] at hrow; exact hrow
    | none =>
      rw [h0] at hrow
      simp only [alookup] at hrow
      rw [if_neg (fun h => hk h.symm)] at hrow
      cases hrow
  have haux := addEdges_ordered_aux sim docId emb (keysOf st.nodes) hnd hfresh
    st.embeddings st2 []
    hadjkeys2
    (fun p hp => by rw [← hemb]; exact fst_mem_keysOf hp)
    hdocrow2
    (by rw [keysOf_nil, List.nil_append, hemb])
    (by
      intro k row hk hrow
      have h0 := hrows2 k row hk hrow
      have hsubN : List.Sublist (keysOf row) (keysOf st.nodes) := hord k row h0
      exact ⟨List.Sublist.trans hsubN (List.sublist_append_left _ _), fun _ => hsubN⟩)
  obtain ⟨ld', hld', hldsub, hrowsfin⟩ := haux
  intro k row hrow
  rw [addEdges_nodes, hnodes']
  by_cases hk : k = docId
  · subst hk
    have h2 : some ld' = some row := hld'.symm.trans hrow
    injection h2 with h2
    subst h2
    exact List.Sublist.trans hldsub (List.sublist_append_left _ _)
  · exact hrowsfin k row hk hrow

theorem replay_invariant_aux {E : Type} (sim : E → E → ℚ) :
    ∀ (ops : List (DocOp E)) (st : GraphRAG E), WF st → AdjOrdered st →
      (∀ op ∈ ops, op.docId ∉ keysOf st.nodes) →
      (ops.map (fun op => op.docId)).Nodup →
      AdjOrdered (ops.foldl (fun s op => addDocument sim s op.docId op.text op.emb op.md) st) := by
  intro ops
  induction ops with
  | nil => intro st _ hord _ _; exact hord
  | cons op rest ih =>
    intro st hwf hord hfresh hnodup
    have hfresh0 : op.docId ∉ keysOf st.nodes := hfresh op (List.mem_cons_self _ _)
    have hwf' := WF_addDocument sim st op.docId op.text op.emb op.md hwf
    have hord' := AdjOrdered_addDocument sim st op.docId op.text op.emb op.md hwf hord hfresh0
    have hkeys' := nodeKeys_addDocument_fresh sim st op.docId op.text op.emb op.md hfresh0
    rw [List.map_cons, List.nodup_cons] at hnodup
    refine ih _ hwf' hord' ?_ hnodup.2
    intro op' hop'
    rw [hkeys', List.mem_append, List.mem_singleton]
    push_neg
    constructor
    · exact hfresh op' (List.mem_cons_of_mem _ hop')
    · intro heq
      exact hnodup.1 (heq ▸ List.mem_map_of_mem (fun o => o.docId) hop')

theorem AdjOrdered_replay {E : Type} (sim : E → E → ℚ) (ops : List (DocOp E))
    (hnodup : (ops.map (fun op => op.docId)).Nodup) :
    AdjOrdered (replay sim ops) := by
  refine replay_invariant_aux sim ops GraphRAG.empty WF_empty ?_ ?_ hnodup
  · intro k row h; cases h
  · intro op _ h; cases h

theorem pairwise_inOrder_self : ∀ (L : List String),
    L.Pairwise (fun a b => List.Sublist [a, b] L) := by
  intro L
  induction L with
  | nil => exact List.Pairwise.nil
  | cons x L' ih =>
    rw [List.pairwise_cons]
    constructor
    · intro b hb
      exact List.Sublist.cons₂ x (List.singleton_sublist.mpr hb)
    · refine List.Pairwise.imp ?_ ih
      intro a b h
      exact List.Sublist.trans h (List.sublist_cons_self x L')

theorem getDocumentRelationships_sorted {E : Type} {st : GraphRAG E}
    (hwf : WF st) (hord : AdjOrdered st) (d : String)
    (hd : isNode st d = true) :
    ∃ rels, getDocumentRelationships st d = some rels ∧
      rels.Pairwise (RelOrdered (keysOf st.nodes)) := by
  obtain ⟨⟨hemb, htex, hadj⟩, hnd, hns, hnb⟩ := hwf
  obtain ⟨row, hrow⟩ := Option.isSome_iff_exists.mp hd
  have hlook : ∀ n ∈ keysOf row, (alookup n st.texts).isSome = true ∧
      (alookup n st.nodes).isSome = true := by
    intro n hn
    have hmem : n ∈ keysOf st.adj := hnb d row hrow n hn
    rw [hadj] at hmem
    exact ⟨alookup_isSome_of_mem (by rw [htex]; exact hmem), alookup_isSome_of_mem hmem⟩
  obtain ⟨rels0, hr0, hids, hsims⟩ := relFromAdj_total st row hlook
  have hout : getDocumentRelationships st d
      = some (sortDescBy (fun r => r.similarity) rels0) := by
    unfold getDocumentRelationships
    rw [hrow]
    simp [hr0]
  refine ⟨sortDescBy (fun r => r.similarity) rels0, hout, ?_⟩
  have hrowsub : List.Sublist (keysOf row) (keysOf st.nodes) := hord d row hrow
  have hpw0 : (keysOf row).Pairwise (fun a b => List.Sublist [a, b] (keysOf st.nodes)) :=
    List.Pairwise.sublist hrowsub (pairwise_inOrder_self (keysOf st.nodes))
  have hpwids : (rels0.map (fun r => r.id)).Pairwise
      (fun a b => List.Sublist [a, b] (keysOf st.nodes)) := by
    rw [hids]; exact hpw0
  have hpwrels : rels0.Pairwise
      (fun x y => List.Sublist [x.id, y.id] (keysOf st.nodes)) :=
    (List.pairwise_map).mp hpwids
  exact sortDescBy_pairwise (fun r => r.similarity)
    (fun x y => List.Sublist [x.id, y.id] (keysOf st.nodes)) rels0 hpwrels

/-! ## Edge/similarity characterization (claim C5) -/

theorem edgeWeight_addEdge_self {E : Type} {st : GraphRAG E} {a b : String} (w : ℚ)
    (ha : a ∈ keysOf st.adj) (hb : b ∈ keysOf st.adj) (hab : a ≠ b) :
    edgeWeight (addEdge st a b w) a b = some w ∧
    edgeWeight (addEdge st a b w) b a = some w := by
  obtain ⟨rowa, hrowa⟩ := Option.isSome_iff_exists.mp (alookup_isSome_of_mem ha)
  obtain ⟨rowb, hrowb⟩ := Option.isSome_iff_exists.mp (alookup_isSome_of_mem hb)
  constructor
  · unfold edgeWeight
    rw [addEdge_alookup_fst w ha hb hab, hrowa]
    simp [alookup_aset_self]
  · unfold edgeWeight
    rw [addEdge_alookup_snd w ha hb hab, hrowb]
    simp [alookup_aset_self]

theorem edgeWeight_addEdge_row_other {E : Type} {st : GraphRAG E} {a b y : String} (w : ℚ)
    (ha : a ∈ keysOf st.adj) (hb : b ∈ keysOf st.adj) (hab : a ≠ b) (hy : y ≠ b) :
    edgeWeight (addEdge st a b w) a y = edgeWeight st a y := by
  unfold edgeWeight
  rw [addEdge_alookup_fst w ha hb hab]
  cases h : alookup a st.adj with
  | none => rfl
  | some rowa => simp [alookup_aset_ne _ _ hy]

theorem edgeWeight_addEdge_rowb_other {E : Type} {st : GraphRAG E} {a b y : String} (w : ℚ)
    (ha : a ∈ keysOf st.adj) (hb : b ∈ keysOf st.adj) (hab : a ≠ b) (hy : y ≠ a) :
    edgeWeight (addEdge st a b w) b y = edgeWeight st b y := by
  unfold edgeWeight
  rw [addEdge_alookup_snd w ha hb hab]
  cases h : alookup b st.adj with
  | none => rfl
  | some rowb => simp [alookup_aset_ne _ _ hy]

theorem edgeWeight_addEdge_other {E : Type} {st : GraphRAG E} {a b x : String} (w : ℚ)
    (ha : a ∈ keysOf st.adj) (hb : b ∈ keysOf st.adj) (hxa : x ≠ a) (hxb : x ≠ b) :
    ∀ y, edgeWeight (addEdge st a b w) x y = edgeWeight st x y := by
  intro y
  unfold edgeWeight
  rw [addEdge_alookup_other w ha hb hxa hxb]

theorem addEdges_edgeWeight_preserved {E : Type} (sim : E → E → ℚ) (docId : String) (emb : E) :
    ∀ (entries : List (String × E)) (st : GraphRAG E),
      docId ∈ keysOf st.adj → (∀ p ∈ entries, p.1 ∈ keysOf st.adj) →
      ∀ x y, x ≠ docId → y ≠ docId →
        edgeWeight (addEdges sim docId emb entries st) x y = edgeWeight st x y := by
  intro entries
  induction entries with
  | nil => intro st _ _ x y _ _; rfl
  | cons p rest ih =>
    intro st hdoc hall x y hx hy
    obtain ⟨eid, eemb⟩ := p
    have heid : eid ∈ keysOf st.adj := hall (eid, eemb) (List.mem_cons_self _ _)
    have hrest : ∀ p ∈ rest, p.1 ∈ keysOf st.adj :=
      fun p hp => hall p (List.mem_cons_of_mem _ hp)
    by_cases h : eid = docId
    · have hstep : addEdges sim docId emb ((eid, eemb) :: rest) st
          = addEdges sim docId emb rest st := by simp [addEdges, h]
      rw [hstep]
      exact ih st hdoc hrest x y hx hy
    · by_cases hthr : (0.7 : ℚ) < sim emb eemb
      · set w := sim emb eemb with hw
        have hne : docId ≠ eid := fun hq => h hq.symm
        have hstep : addEdges sim docId emb ((eid, eemb) :: rest) st
            = addEdges sim docId emb rest (addEdge st docId eid w) := by
          simp [addEdges, h, hthr, hw]
        rw [hstep]
        have hkeys := addEdge_adj_keys w hdoc heid
        have hdoc' : docId ∈ keysOf (addEdge st docId eid w).adj := by rw [hkeys]; exact hdoc
        have hrest' : ∀ p ∈ rest, p.1 ∈ keysOf (addEdge st docId eid w).adj := by
          intro p hp; rw [hkeys]; exact hrest p hp
        rw [ih _ hdoc' hrest' x y hx hy]
        by_cases hxe : x = eid
        · subst hxe
          exact edgeWeight_addEdge_rowb_other w hdoc heid hne hy
        · exact edgeWeight_addEdge_other w hdoc heid hx hxe y
      · have hstep : addEdges sim docId emb ((eid, eemb) :: rest) st
            = addEdges sim docId emb rest st := by simp [addEdges, h, hthr]
        rw [hstep]
        exact ih st hdoc hrest x y hx hy

theorem addEdges_edgeWeight_doc_notin {E : Type} (sim : E → E → ℚ) (docId : String) (emb : E) :
    ∀ (entries : List (String × E)) (st : GraphRAG E) (y : String),
      docId ∈ keysOf st.adj → (∀ p ∈ entries, p.1 ∈ keysOf st.adj) →
      y ∉ keysOf entries →
      edgeWeight (addEdges sim docId emb entries st) docId y = edgeWeight st docId y ∧
      edgeWeight (addEdges sim docId emb entries st) y docId = edgeWeight st y docId := by
  intro entries
  induction entries with
  | nil => intro st y _ _ _; exact ⟨rfl, rfl⟩
  | cons p rest ih =>
    intro st y hdoc hall hy
    obtain ⟨eid, eemb⟩ := p
    have heid : eid ∈ keysOf st.adj := hall (eid, eemb) (List.mem_cons_self _ _)
    have hrest : ∀ p ∈ rest, p.1 ∈ keysOf st.adj :=
      fun p hp => hall p (List.mem_cons_of_mem _ hp)
    have hyeid : y ≠ eid := fun hq => hy (mem_keysOf_cons.mpr (Or.inl hq))
    have hyrest : y ∉ keysOf rest := fun hq => hy (mem_keysOf_cons.mpr (Or.inr hq))
    by_cases h : eid = docId
    · have hstep : addEdges sim docId emb ((eid, eemb) :: rest) st
          = addEdges sim docId emb rest st := by simp [addEdges, h]
      rw [hstep]
      exact ih st y hdoc hrest hyrest
    · by_cases hthr : (0.7 : ℚ) < sim emb eemb
      · set w := sim emb eemb with hw
        have hne : docId ≠ eid := fun hq => h hq.symm
        have hstep : addEdges sim docId emb ((eid, eemb) :: rest) st
            = addEdges sim docId emb rest (addEdge st docId eid w) := by
          simp [addEdges, h, hthr, hw]
        rw [hstep]
        have hkeys := addEdge_adj_keys w hdoc heid
        have hdoc' : docId ∈ keysOf (addEdge st docId eid w).adj := by rw [hkeys]; exact hdoc
        have hrest' : ∀ p ∈ rest, p.1 ∈ keysOf (addEdge st docId eid w).adj := by
          intro p hp; rw [hkeys]; exact hrest p hp
        obtain ⟨hrow, hcol⟩ := ih (addEdge st docId eid w) y hdoc' hrest' hyrest
        rw [hrow, hcol]
        constructor
        · exact edgeWeight_addEdge_row_other w hdoc heid hne hyeid
        · by_cases hydoc : y = docId
          · subst hydoc
            exact edgeWeight_addEdge_row_other w hdoc heid hne hyeid
          · exact edgeWeight_addEdge_other w hdoc heid hydoc hyeid docId
      · have hstep : addEdges sim docId emb ((eid, eemb) :: rest) st
            = addEdges sim docId emb rest st := by simp [addEdges, h, hthr]
        rw [hstep]
        exact ih st y hdoc hrest hyrest

theorem addEdges_edgeWeight_doc_char {E : Type} (sim : E → E → ℚ) (docId : String) (emb : E) :
    ∀ (entries : List (String × E)) (st : GraphRAG E) (y : String) (ey : E),
      docId ∈ keysOf st.adj → (∀ p ∈ entries, p.1 ∈ keysOf st.adj) →
      (keysOf entries).Nodup →
      y ≠ docId →
      alookup y entries = some ey →
      edgeWeight st docId y = none →
      edgeWeight st y docId = none →
      edgeWeight (addEdges sim docId emb entries st) docId y
        = (if (0.7 : ℚ) < sim emb ey then some (sim emb ey) else none) ∧
      edgeWeight (addEdges sim docId emb entries st) y docId
        = (if (0.7 : ℚ) < sim emb ey then some (sim emb ey) else none) := by
  intro entries
  induction entries with
  | nil => intro st y ey _ _ _ _ hlook _ _; cases hlook
  | cons p rest ih =>
    intro st y ey hdoc hall hnodup hy hlook hnone1 hnone2
    obtain ⟨eid, eemb⟩ := p
    have heid : eid ∈ keysOf st.adj := hall (eid, eemb) (List.mem_cons_self _ _)
    have hrest : ∀ p ∈ rest, p.1 ∈ keysOf st.adj :=
      fun p hp => hall p (List.mem_cons_of_mem _ hp)
    have hnodup' : (keysOf rest).Nodup := by
      rw [keysOf_cons, List.nodup_cons] at hnodup
      exact hnodup.2
    have heid_rest : eid ∉ keysOf rest := by
      rw [keysOf_cons, List.nodup_cons] at hnodup
      exact hnodup.1
    by_cases h : eid = docId
    · -- the loop skips doc_id itself
      have hstep : addEdges sim docId emb ((eid, eemb) :: rest) st
          = addEdges sim docId emb rest st := by simp [addEdges, h]
      have hlook' : alookup y rest = some ey := by
        have hne : eid ≠ y := fun hq => hy (hq.symm.trans h)
        simpa [alookup, hne] using hlook
      rw [hstep]
      exact ih st y ey hdoc hrest hnodup' hy hlook' hnone1 hnone2
    · by_cases hye : eid = y
      · -- this is the entry for y itself
        subst hye
        have heyv : eemb = ey := by
          simpa [alookup] using hlook
        subst heyv
        by_cases hthr : (0.7 : ℚ) < sim emb eemb
        · set w := sim emb eemb with hw
          have hne : docId ≠ eid := fun hq => h hq.symm
          have hstep : addEdges sim docId emb ((eid, eemb) :: rest) st
              = addEdges sim docId emb rest (addEdge st docId eid w) := by
            simp [addEdges, h, hthr, hw]
          rw [hstep]
          have hkeys := addEdge_adj_keys w hdoc heid
          have hdoc' : docId ∈ keysOf (addEdge st docId eid w).adj := by
            rw [hkeys]; exact hdoc
          have hrest' : ∀ p ∈ rest, p.1 ∈ keysOf (addEdge st docId eid w).adj := by
            intro p hp; rw [hkeys]; exact hrest p hp
          obtain ⟨hprow, hpcol⟩ := addEdges_edgeWeight_doc_notin sim docId emb rest
            (addEdge st docId eid w) eid hdoc' hrest' heid_rest
          obtain ⟨hself1, hself2⟩ := edgeWeight_addEdge_self w hdoc heid hne
          rw [hprow, hpcol, hself1, hself2, if_pos hthr]
          exact ⟨rfl, rfl⟩
        · have hstep : addEdges sim docId emb ((eid, eemb) :: rest) st
              = addEdges sim docId emb rest st := by simp [addEdges, h, hthr]
          rw [hstep]
          obtain ⟨hprow, hpcol⟩ := addEdges_edgeWeight_doc_notin sim docId emb rest
            st eid hdoc hrest heid_rest
          rw [hprow, hpcol, hnone1, hnone2, if_neg hthr]
          exact ⟨rfl, rfl⟩
      · -- a different entry is processed first
        have hlook' : alookup y rest = some ey := by
          simpa [alookup, hye] using hlook
        by_cases hthr : (0.7 : ℚ) < sim emb eemb
        · set w := sim emb eemb with hw
          have hne : docId ≠ eid := fun hq => h hq.symm
          have hstep : addEdges sim docId emb ((eid, eemb) :: rest) st
              = addEdges sim docId emb rest (addEdge st docId eid w) := by
            simp [addEdges, h, hthr, hw]
          rw [hstep]
          have hkeys := addEdge_adj_keys w hdoc heid
          have hdoc' : docId ∈ keysOf (addEdge st docId eid w).adj := by
            rw [hkeys]; exact hdoc
          have hrest' : ∀ p ∈ rest, p.1 ∈ keysOf (addEdge st docId eid w).adj := by
            intro p hp; rw [hkeys]; exact hrest p hp
          have hyeid : y ≠ eid := fun hq => hye hq.symm
          have hnone1' : edgeWeight (addEdge st docId eid w) docId y = none := by
            rw [edgeWeight_addEdge_row_other w hdoc heid hne hyeid]
            exact hnone1
          have hnone2' : edgeWeight (addEdge st docId eid w) y docId = none := by
            rw [edgeWeight_addEdge_other w hdoc heid hy hyeid docId]
            exact hnone2
          exact ih (addEdge st docId eid w) y ey hdoc' hrest' hnodup' hy hlook'
            hnone1' hnone2'
        · have hstep : addEdges sim docId emb ((eid, eemb) :: rest) st
              = addEdges sim docId emb rest st := by simp [addEdges, h, hthr]
          rw [hstep]
          exact ih st y ey hdoc hrest hnodup' hy hlook' hnone1 hnone2

theorem EdgesMatchSim_empty {E : Type} (sim : E → E → ℚ) :
    EdgesMatchSim sim (GraphRAG.empty : GraphRAG E) := by
  intro a b ea eb _ h _
  cases h

theorem EdgesMatchSim_addDocument {E : Type} (sim : E → E → ℚ) (st : GraphRAG E)
    (docId text : String) (emb : E) (md : Option (List (String × String)))
    (hsym : ∀ x y, sim x y = sim y x) (hwf : WF st)
    (hchar : EdgesMatchSim sim st) (hfresh : docId ∉ keysOf st.nodes) :
    EdgesMatchSim sim (addDocument sim st docId text emb md) := by
  obtain ⟨⟨hemb, htex, hadj⟩, hnd, hns, hnb⟩ := hwf
  have hfreshA : docId ∉ keysOf st.adj := by rw [hadj]; exact hfresh
  have hfreshE : docId ∉ keysOf st.embeddings := by rw [hemb]; exact hfresh
  have hembsplit : aset docId emb st.embeddings = st.embeddings ++ [(docId, emb)] :=
    aset_of_not_mem emb hfreshE
  intro a b ea eb hab hea heb
  rw [addDocument_embeddings, hembsplit] at hea heb
  rw [addDocument_unfold, hembsplit, addEdges_append, addEdges_self_singleton]
  set st2 : GraphRAG E :=
    { nodes := aset docId ⟨text, md.getD []⟩ st.nodes,
      adj := if docId ∈ keysOf st.adj then st.adj else st.adj ++ [(docId, [])],
      embeddings := st.embeddings ++ [(docId, emb)],
      texts := aset docId text st.texts } with hst2
  have hadj2 : st2.adj = st.adj ++ [(docId, [])] := by
    rw [hst2]; simp [if_neg hfreshA]
  have hdoc2 : docId ∈ keysOf st2.adj := by
    rw [hadj2, keysOf_append]
    exact List.mem_append_right _ (by simp [keysOf])
  have hall2 : ∀ p ∈ st.embeddings, p.1 ∈ keysOf st2.adj := by
    intro p hp
    rw [hadj2, keysOf_append]
    refine List.mem_append_left _ ?_
    rw [hadj, ← hemb]
    exact fst_mem_keysOf hp
  have hnodup2 : (keysOf st.embeddings).Nodup := by rw [hemb]; exact hnd
  have hlookup2 : ∀ (x : String), x ≠ docId →
      alookup x st2.adj = alookup x st.adj := by
    intro x hx
    rw [hadj2, alookup_append]
    cases h0 : alookup x st.adj with
    | some row => rfl
    | none =>
      simp only [alookup]
      rw [if_neg (fun h => hx h.symm)]
  have hrow_none : ∀ y, edgeWeight st2 docId y = none := by
    intro y
    unfold edgeWeight
    have : alookup docId st2.adj = some [] := by
      rw [hadj2, alookup_append, (alookup_eq_none_iff _ _).mpr hfreshA]
      simp [alookup]
    rw [this]
    rfl
  have hcol_none : ∀ y, y ≠ docId → edgeWeight st2 y docId = none := by
    intro y hy
    unfold edgeWeight
    rw [hlookup2 y hy]
    cases h0 : alookup y st.adj with
    | none => rfl
    | some row =>
      have : docId ∉ keysOf row := by
        intro hm
        exact hfreshA (hnb y row h0 docId hm)
      simp [(alookup_eq_none_iff _ _).mpr this]
  have hpreserve2 : ∀ x y, x ≠ docId → edgeWeight st2 x y = edgeWeight st x y := by
    intro x y hx
    unfold edgeWeight
    rw [hlookup2 x hx]
  -- split the two embedding lookups
  have hsplit : ∀ (x : String) (v : E),
      alookup x (st.embeddings ++ [(docId, emb)]) = some v →
      alookup x st.embeddings = some v ∨ (x = docId ∧ v = emb) := by
    intro x v h
    rw [alookup_append] at h
    cases h0 : alookup x st.embeddings with
    | some v0 =>
      rw [h0] at h
      exact Or.inl h
    | none =>
      rw [h0] at h
      simp only [alookup] at h
      by_cases hx : docId = x
      · rw [if_pos hx] at h
        injection h with h
        exact Or.inr ⟨hx.symm, h.symm⟩
      · rw [if_neg hx] at h
        cases h
  rcases hsplit a ea hea with haold | ⟨hadoc, haemb⟩
  · rcases hsplit b eb heb with hbold | ⟨hbdoc, hbemb⟩
    · -- both are pre-existing documents: the loop leaves their edge untouched
      have hane : a ≠ docId := by
        intro h
        subst h
        exact hfreshE (mem_keysOf_of_alookup haold)
      have hbne : b ≠ docId := by
        intro h
        subst h
        exact hfreshE (mem_keysOf_of_alookup hbold)
      rw [addEdges_edgeWeight_preserved sim docId emb st.embeddings st2 hdoc2 hall2
        a b hane hbne, hpreserve2 a b hane]
      exact hchar a b ea eb hab haold hbold
    · -- b is the new document
      have hane : a ≠ docId := by rw [← hbdoc]; exact hab
      have hchar2 := addEdges_edgeWeight_doc_char sim docId emb st.embeddings st2 a ea
        hdoc2 hall2 hnodup2 hane haold (hrow_none a) (hcol_none a hane)
      rw [hbdoc, hbemb, hchar2.2, hsym ea emb]
  · -- a is the new document
    have hbne : b ≠ docId := fun h => hab (hadoc.trans h.symm)
    have hbold : alookup b st.embeddings = some eb := by
      rcases hsplit b eb heb with h | ⟨hbdoc, _⟩
      · exact h
      · exact absurd hbdoc hbne
    have hchar2 := addEdges_edgeWeight_doc_char sim docId emb st.embeddings st2 b eb
      hdoc2 hall2 hnodup2 hbne hbold (hrow_none b) (hcol_none b hbne)
    rw [hadoc, haemb]
    exact hchar2.1

theorem EdgesMatchSim_fold_aux {E : Type} (sim : E → E → ℚ)
    (hsym : ∀ x y, sim x y = sim y x) :
    ∀ (ops : List (DocOp E)) (st : GraphRAG E), WF st → EdgesMatchSim sim st →
      (∀ op ∈ ops, op.docId ∉ keysOf st.nodes) →
      (ops.map (fun op => op.docId)).Nodup →
      EdgesMatchSim sim
        (ops.foldl (fun s op => addDocument sim s op.docId op.text op.emb op.md) st) := by
  intro ops
  induction ops with
  | nil => intro st _ hc _ _; exact hc
  | cons op rest ih =>
    intro st hwf hc hfresh hnodup
    have hfresh0 : op.docId ∉ keysOf st.nodes := hfresh op (List.mem_cons_self _ _)
    have hwf' := WF_addDocument sim st op.docId op.text op.emb op.md hwf
    have hc' := EdgesMatchSim_addDocument sim st op.docId op.text op.emb op.md
      hsym hwf hc hfresh0
    have hkeys' := nodeKeys_addDocument_fresh sim st op.docId op.text op.emb op.md hfresh0
    rw [List.map_cons, List.nodup_cons] at hnodup
    refine ih _ hwf' hc' ?_ hnodup.2
    intro op' hop'
    rw [hkeys', List.mem_append, List.mem_singleton]
    push_neg
    refine ⟨hfresh op' (List.mem_cons_of_mem _ hop'), ?_⟩
    intro heq
    exact hnodup.1 (heq ▸ List.mem_map_of_mem (fun o => o.docId) hop')

theorem EdgesMatchSim_replay {E : Type} (sim : E → E → ℚ) (ops : List (DocOp E))
    (hsym : ∀ x y, sim x y = sim y x)
    (hnodup : (ops.map (fun op => op.docId)).Nodup) :
    EdgesMatchSim sim (replay sim ops) := by
  refine EdgesMatchSim_fold_aux sim hsym ops GraphRAG.empty WF_empty
    (EdgesMatchSim_empty sim) ?_ hnodup
  intro op _ h
  cases h

/-! ## Claims -/

/-- Claim C10: every sequence of `add_document` calls keeps the graph node set,
the embeddings keys, the texts keys (and the adjacency keys) identical; no edge
ever connects a document id to itself; consequently `get_document_relationships`
never hits a `KeyError` looking up a neighbor in `texts` or the node attributes
(its result is always `some`). -/
theorem claim_C10 {E : Type} (sim : E → E → ℚ) (ops : List (DocOp E)) :
    (keysOf (replay sim ops).embeddings = keysOf (replay sim ops).nodes ∧
     keysOf (replay sim ops).texts = keysOf (replay sim ops).nodes ∧
     keysOf (replay sim ops).adj = keysOf (replay sim ops).nodes) ∧
    NoSelf (replay sim ops) ∧
    (∀ d, (getDocumentRelationships (replay sim ops) d).isSome = true) := by
  have hwf := WF_replay sim ops
  exact ⟨hwf.1, hwf.2.2.1, fun d => getDocumentRelationships_isSome hwf d⟩

/-- Claim C8: on any reachable graph state, `get_context(seed_ids, depth=0)`
returns exactly the seeds that are present in the graph — no neighbor is ever
included at depth 0, whatever the edges are. -/
theorem claim_C8 {E : Type} (sim : E → E → ℚ) (ops : List (DocOp E))
    (seeds : List String) :
    getContextIds (replay sim ops) seeds 0
      = (seeds.filter (fun d => isNode (replay sim ops) d)).toFinset := by
  have hwf := WF_replay sim ops
  obtain ⟨⟨hemb, htex, hadj⟩, _, _, _⟩ := hwf
  unfold getContextIds
  by_cases hempty : seeds.isEmpty
  · rw [if_pos hempty]
    cases seeds with
    | nil => simp
    | cons x xs => simp [List.isEmpty] at hempty
  · rw [if_neg hempty, collectNeighbors_zero, Finset.union_empty]
    ext x
    simp only [Finset.mem_filter, List.mem_toFinset, List.mem_filter]
    have hiff : (alookup x (replay sim ops).texts).isSome = true ↔
        (alookup x (replay sim ops).adj).isSome = true := by
      rw [alookup_isSome_iff_mem, alookup_isSome_iff_mem, htex, hadj]
    unfold isNode
    constructor
    · rintro ⟨hx, _, hadj'⟩
      exact ⟨hx, hadj'⟩
    · rintro ⟨hx, hnode⟩
      exact ⟨hx, hiff.mpr hnode, hnode⟩

/-- Counterexample to claim C2: re-adding id "a" is not rejected — the code
silently overwrites the stored text (and the spec-faithful reference operation
would have failed instead). -/
theorem claim_C2_counterexample :
    addDocumentSpec simZero (addDocument simZero GraphRAG.empty "a" "t1" () none)
        "a" "t2" () none = none ∧
    alookup "a" (addDocument simZero (addDocument simZero GraphRAG.empty "a" "t1" () none)
        "a" "t2" () none).texts = some "t2" ∧
    alookup "a" (addDocument simZero GraphRAG.empty "a" "t1" () none).texts
        = some "t1" := by
  refine ⟨by decide, by decide, by decide⟩

/-- Claim C2 as amended: calling `add_document` with an id already present as a
node does not fail; it silently overwrites the node's text, embedding and
metadata (update semantics). -/
theorem claim_C2_amended {E : Type} (sim : E → E → ℚ) (st : GraphRAG E)
    (docId text : String) (emb : E) (md : Option (List (String × String)))
    (hdup : docId ∈ keysOf st.nodes) :
    alookup docId (addDocument sim st docId text emb md).texts = some text ∧
    alookup docId (addDocument sim st docId text emb md).embeddings = some emb ∧
    alookup docId (addDocument sim st docId text emb md).nodes
      = some ⟨text, md.getD []⟩ := by
  rw [addDocument_texts, addDocument_embeddings, addDocument_nodes]
  exact ⟨alookup_aset_self _ _ _, alookup_aset_self _ _ _, alookup_aset_self _ _ _⟩

/-- Witness for the amended C2 at a concrete duplicate insertion. -/
theorem claim_C2_witness :
    alookup "a" (addDocument simZero (addDocument simZero GraphRAG.empty "a" "t1" () none)
        "a" "t2" () none).texts = some "t2" ∧
    alookup "a" (addDocument simZero (addDocument simZero GraphRAG.empty "a" "t1" () none)
        "a" "t2" () none).embeddings = some () ∧
    alookup "a" (addDocument simZero (addDocument simZero GraphRAG.empty "a" "t1" () none)
        "a" "t2" () none).nodes = some ⟨"t2", Option.getD none []⟩ :=
  claim_C2_amended simZero (addDocument simZero GraphRAG.empty "a" "t1" () none)
    "a" "t2" () none (by decide)

/-- Counterexample to claim C3: looking up relationships of an id that is absent
from the graph does not fail with NotFound — it returns the empty list, exactly
the value produced for a present node with zero neighbors, so the two cases are
indistinguishable. -/
theorem claim_C3_counterexample :
    isNode (replay simZero [⟨"y", "ty", (), none⟩]) "x" = false ∧
    isNode (replay simZero [⟨"y", "ty", (), none⟩]) "y" = true ∧
    getDocumentRelationships (replay simZero [⟨"y", "ty", (), none⟩]) "x" = some [] ∧
    getDocumentRelationships (replay simZero [⟨"y", "ty", (), none⟩]) "y" = some [] := by
  refine ⟨by decide, by decide, by decide, by decide⟩

/-- Claim C3 as amended: for every graph state, `get_document_relationships` on an
id absent from the graph returns the empty list (no error), the same result as for
a present node with zero neighbors. -/
theorem claim_C3_amended {E : Type} (st : GraphRAG E) (d : String)
    (habs : isNode st d = false) :
    getDocumentRelationships st d = some [] := by
  unfold getDocumentRelationships
  unfold isNode at habs
  cases h : alookup d st.adj with
  | none => rfl
  | some row => rw [h] at habs; cases habs

/-- Witness for the amended C3 on a concrete state. -/
theorem claim_C3_witness :
    getDocumentRelationships (replay simZero [⟨"y", "ty", (), none⟩]) "x" = some [] :=
  claim_C3_amended (replay simZero [⟨"y", "ty", (), none⟩]) "x" (by decide)

/-- Claim C9: for every state built by `add_document` calls with (per the data
model) unique document ids, and every id present in the graph,
`get_document_relationships` succeeds and its list is sorted by edge weight
descending, with equal weights ordered by the insertion order of the neighbor
nodes. -/
theorem claim_C9 {E : Type} (sim : E → E → ℚ) (ops : List (DocOp E))
    (hnodup : (ops.map (fun op => op.docId)).Nodup)
    (d : String) (hd : isNode (replay sim ops) d = true) :
    ∃ rels, getDocumentRelationships (replay sim ops) d = some rels ∧
      rels.Pairwise (RelOrdered (keysOf (replay sim ops).nodes)) :=
  getDocumentRelationships_sorted (WF_replay sim ops)
    (AdjOrdered_replay sim ops hnodup) d hd

/-- Witness for C9 at the concrete three-document graph with a weight tie. -/
theorem claim_C9_witness :
    ∃ rels, getDocumentRelationships (replay simW9 opsW9) "a" = some rels ∧
      rels.Pairwise (RelOrdered (keysOf (replay simW9 opsW9).nodes)) :=
  claim_C9 simW9 opsW9 (by decide) "a" (by decide)

/-- Claim C5: on every state built by `add_document` calls with unique ids (and a
symmetric similarity, as cosine similarity is), two distinct stored documents are
joined by an edge exactly when the cosine similarity of their embeddings is
strictly greater than the 0.7 threshold, and the edge weight then equals that
similarity exactly (hence within the 1e-6 tolerance). -/
theorem claim_C5 {E : Type} (sim : E → E → ℚ) (ops : List (DocOp E))
    (hsym : ∀ x y, sim x y = sim y x)
    (hnodup : (ops.map (fun op => op.docId)).Nodup)
    (a b : String) (ea eb : E) (hab : a ≠ b)
    (hea : alookup a (replay sim ops).embeddings = some ea)
    (heb : alookup b (replay sim ops).embeddings = some eb) :
    edgeWeight (replay sim ops) a b
      = if (0.7 : ℚ) < sim ea eb then some (sim ea eb) else none :=
  EdgesMatchSim_replay sim ops hsym hnodup a b ea eb hab hea heb

/-- Witness for C5: the concrete two-document graph carries the edge with weight
exactly 0.8. -/
theorem claim_C5_witness :
    edgeWeight (replay simC5 opsC5) "a" "b" = some 0.8 := by
  have h := claim_C5 simC5 opsC5 (fun _ _ => rfl) (by decide) "a" "b" () ()
    (by decide) (by decide) (by decide)
  rw [h]
  decide

/-- Counterexample to claim C4: executing an unregistered capability does not
fail with a distinguished UnknownCapability error — it returns the ordinary text
result `"Unknown tool: <name>"`, indistinguishable from a successful provider
result carrying the same text, while the spec's reference contract fails. -/
theorem claim_C4_counterexample :
    toolGatewayExecute false implC4 "no_such_tool" = "Unknown tool: no_such_tool" ∧
    toolGatewayExecute true implC4 "no_such_tool" = "Unknown tool: no_such_tool" ∧
    toolGatewayExecute false implC4 "no_such_tool"
      = toolGatewayExecute false implC4 "web_search" ∧
    executeCapabilitySpec knownToolNames (fun _ => "Unknown tool: no_such_tool")
      "no_such_tool" = Except.error () := by
  refine ⟨by decide, by decide, by decide, ?_⟩
  unfold executeCapabilitySpec
  rw [if_neg (by decide)]

/-- Claim C4 as amended: for an unregistered name `execute_tool` returns the plain
string `"Unknown tool: <name>"` as a successful text result (no distinguished
error); for registered names it returns the provider's text, and a provider
exception is converted to an `"Error executing tool ..."` string — nothing is
raised past this layer (the embedding is a total `String`-valued function). -/
theorem claim_C4_amended (useMcp : Bool) (impl : String → Except String String)
    (name : String) :
    (name ∉ knownToolNames →
      toolGatewayExecute useMcp impl name = "Unknown tool: " ++ name) ∧
    (∀ s, name ∈ knownToolNames → impl name = Except.ok s →
      toolGatewayExecute useMcp impl name = s) ∧
    (∀ e, name ∈ knownToolNames → impl name = Except.error e →
      toolGatewayExecute useMcp impl name
        = "Error executing tool " ++ name ++ ": " ++ e) := by
  unfold toolGatewayExecute toolServiceExecute
  refine ⟨?_, ?_, ?_⟩
  · intro h
    rw [if_neg h]
  · intro s hmem himpl
    rw [if_pos hmem, himpl]
  · intro e hmem himpl
    rw [if_pos hmem, himpl]

/-- Witness for the amended C4 at a concrete unregistered name. -/
theorem claim_C4_witness :
    toolGatewayExecute true implC4 "mystery_tool" = "Unknown tool: " ++ "mystery_tool" :=
  (claim_C4_amended true implC4 "mystery_tool").1 (by decide)

theorem getResponse_genError (deps : ChatDeps) (query : String)
    (history : List (String × Option String)) (e : String)
    (hkey : deps.apiKeyOk = true) (hgen : deps.genOutcome = Except.error e) :
    getResponse deps query history =
      { response := openRouterErrorMsg e,
        context := (assemble deps.searchOutcome).2,
        sources := [],
        meta := RespMeta.errorMeta "openai/gpt-3.5-turbo" e,
        groundingInstruction :=
          sysContentOf (runContextStr deps) (runWebResult deps query) (runTopInfo deps),
        messages := ("system",
            sysContentOf (runContextStr deps) (runWebResult deps query) (runTopInfo deps))
          :: (historyMessages history ++ [("user", query)]) } := by
  unfold getResponse runContextStr runWebResult runTopInfo
  rw [hkey, hgen]
  simp

theorem getResponse_genOk (deps : ChatDeps) (query : String)
    (history : List (String × Option String)) (g : GenSuccess)
    (hkey : deps.apiKeyOk = true) (hgen : deps.genOutcome = Except.ok g) :
    getResponse deps query history =
      { response := g.text,
        context := (assemble deps.searchOutcome).2,
        sources :=
          (match runTopInfo deps with
           | some i => [SourceEntry.knowledge i]
           | none => []) ++
          (if optTruthy (runWebResult deps query)
           then [SourceEntry.webSearch query] else []),
        meta := RespMeta.successMeta g.model g.totalTokens
          (if (assemble deps.searchOutcome).2.isEmpty then 0 else 1)
          (((assemble deps.searchOutcome).2.head?).map (fun en => en.score))
          (optTruthy (runWebResult deps query))
          (match runTopInfo deps with | some i => i.topic | none => "None"),
        groundingInstruction :=
          sysContentOf (runContextStr deps) (runWebResult deps query) (runTopInfo deps),
        messages := ("system",
            sysContentOf (runContextStr deps) (runWebResult deps query) (runTopInfo deps))
          :: (historyMessages history ++ [("user", query)]) } := by
  unfold getResponse runContextStr runWebResult runTopInfo
  rw [hkey, hgen]
  simp

/-- Counterexample to claim C1: a top knowledge-base source was selected (the
returned `context` carries it, and the identical run with a working generator
cites it), the generator call failed, and the returned `sources` list is empty —
the selected source does **not** appear in `sources`. -/
theorem claim_C1_counterexample :
    (getResponse depsC1 "hi" []).context ≠ [] ∧
    (getResponse depsC1 "hi" []).response
      = "API Error: boom. Please check your API key and try again." ∧
    (getResponse depsC1 "hi" []).sources = [] ∧
    (getResponse depsC1ok "hi" []).sources ≠ [] := by
  refine ⟨by decide, by decide, by decide, by decide⟩

/-- Claim C1 as amended: when the generator call fails, the response's textual
field carries the explanatory error message and the `context` field still
reflects the context assembled before the failure, but the `sources`
(attributions) list is always empty — the selected top source is dropped from it. -/
theorem claim_C1_amended (deps : ChatDeps) (query : String)
    (history : List (String × Option String)) (e : String)
    (hkey : deps.apiKeyOk = true) (hgen : deps.genOutcome = Except.error e) :
    (getResponse deps query history).response = openRouterErrorMsg e ∧
    (getResponse deps query history).context = (assemble deps.searchOutcome).2 ∧
    (getResponse deps query history).sources = [] ∧
    (getResponse deps query history).meta
      = RespMeta.errorMeta "openai/gpt-3.5-turbo" e := by
  rw [getResponse_genError deps query history e hkey hgen]
  exact ⟨rfl, rfl, rfl, rfl⟩

/-- Witness for the amended C1 at the concrete failing run. -/
theorem claim_C1_witness :
    (getResponse depsC1 "hi" []).response = openRouterErrorMsg "boom" ∧
    (getResponse depsC1 "hi" []).context = (assemble depsC1.searchOutcome).2 ∧
    (getResponse depsC1 "hi" []).sources = [] ∧
    (getResponse depsC1 "hi" []).meta
      = RespMeta.errorMeta "openai/gpt-3.5-turbo" "boom" :=
  claim_C1_amended depsC1 "hi" [] "boom" rfl rfl

/-- Counterexample to claim C6: with zero candidates the context is empty and the
grounding instruction is the explicit no-knowledge-base-match prompt, but for a
query matching the live-augmentation keyword list ("current news") whose web call
succeeds, the attributions list is *not* empty — it carries the web-search
source. -/
theorem claim_C6_counterexample :
    (getResponse depsC6 "current news" []).context = [] ∧
    (getResponse depsC6 "current news" []).groundingInstruction = noKbContent ∧
    needsWebSearch "current news" = true ∧
    (getResponse depsC6 "current news" []).sources
      = [SourceEntry.webSearch "current news"] ∧
    (getResponse depsC6 "current news" []).sources ≠ [] := by
  refine ⟨by decide, by decide, by decide, by decide, by decide⟩

/-- Claim C6 as amended: when the nearest-neighbor search returns zero candidates
the orchestrator still returns a well-formed response with empty `context` and
the grounding instruction that explicitly tells the generator no knowledge-base
match was found; the attributions list is empty *unless* the query triggered live
augmentation and the web call returned a non-empty result, in which case it
contains exactly the one web-search attribution. -/
theorem claim_C6_amended (deps : ChatDeps) (query : String)
    (history : List (String × Option String)) (g : GenSuccess)
    (hsearch : deps.searchOutcome = Except.ok [])
    (hkey : deps.apiKeyOk = true) (hgen : deps.genOutcome = Except.ok g) :
    (getResponse deps query history).context = [] ∧
    (getResponse deps query history).groundingInstruction = noKbContent ∧
    (getResponse deps query history).sources
      = (if optTruthy (runWebResult deps query)
         then [SourceEntry.webSearch query] else []) := by
  rw [getResponse_genOk deps query history g hkey hgen]
  have hassem : assemble deps.searchOutcome = (none, []) := by
    rw [hsearch]
    rfl
  have htop : runTopInfo deps = none := by
    unfold runTopInfo
    rw [hassem]
    rfl
  have hcs : runContextStr deps = "" := by
    unfold runContextStr
    rw [hassem]
    rfl
  refine ⟨by rw [hassem], ?_, ?_⟩
  · show sysContentOf (runContextStr deps) (runWebResult deps query) (runTopInfo deps)
      = noKbContent
    rw [hcs]
    rfl
  · show (match runTopInfo deps with
        | some i => [SourceEntry.knowledge i]
        | none => []) ++ _ = _
    rw [htop]
    simp

/-- Witness for the amended C6 at the concrete zero-candidate run. -/
theorem claim_C6_witness :
    (getResponse depsC6 "current news" []).context = [] ∧
    (getResponse depsC6 "current news" []).groundingInstruction = noKbContent ∧
    (getResponse depsC6 "current news" []).sources
      = (if optTruthy (runWebResult depsC6 "current news")
         then [SourceEntry.webSearch "current news"] else []) :=
  claim_C6_amended depsC6 "current news" [] ⟨"ans", "m", 10⟩ rfl rfl rfl

theorem selectTop_spec (docs : List Candidate) (hne : docs ≠ []) :
    ∃ top, selectTop docs = some top ∧ top ∈ docs ∧
      ∀ c ∈ docs, c.score ≤ top.score := by
  cases docs with
  | nil => exact absurd rfl hne
  | cons x xs =>
    cases hsort : sortDescBy (fun c => c.score) (x :: xs) with
    | nil => exact absurd hsort (sortDescBy_ne_nil _ x xs)
    | cons t rest =>
      refine ⟨t, ?_, sortDescBy_head_mem _ _ t rest hsort,
        sortDescBy_head_max _ _ t rest hsort⟩
      unfold selectTop
      rw [hsort]
      rfl

theorem withPreview_score (i : SourceInfo) (f : String) :
    (withPreview i f).score = i.score := by
  unfold withPreview
  split <;> rfl

theorem withPreview_relevance (i : SourceInfo) (f : String) :
    (withPreview i f).relevance_score = i.relevance_score := by
  unfold withPreview
  split <;> rfl

/-- Claim C7: under the top-match-only selection, for every non-empty candidate
list the orchestrator's knowledge-base attribution heads the `sources` list and
carries a maximal score among the candidates, with `relevance_score` equal to the
score formatted to exactly three decimal places; on the claim's example score 0.9
the formatted value is "0.900". -/
theorem claim_C7 (deps : ChatDeps) (query : String)
    (history : List (String × Option String)) (docs : List Candidate) (g : GenSuccess)
    (hs : deps.searchOutcome = Except.ok docs) (hne : docs ≠ [])
    (hkey : deps.apiKeyOk = true) (hgen : deps.genOutcome = Except.ok g) :
    (∃ info rest,
      (getResponse deps query history).sources = SourceEntry.knowledge info :: rest ∧
      (∃ c ∈ docs, info.score = c.score) ∧
      (∀ c ∈ docs, c.score ≤ info.score) ∧
      info.relevance_score = format3 info.score) ∧
    format3 0.9 = "0.900" := by
  obtain ⟨top, hsel, htopmem, htopmax⟩ := selectTop_spec docs hne
  have hassem : assemble deps.searchOutcome
      = (some (mkTopSourceInfo top), [⟨"doc_0", top.text, top.metadata, top.score⟩]) := by
    rw [hs]
    simp [assemble, hsel]
  have htop : runTopInfo deps = some (withPreview (mkTopSourceInfo top) top.text) := by
    unfold runTopInfo
    rw [hassem]
    rfl
  have hscore : (withPreview (mkTopSourceInfo top) top.text).score = top.score := by
    rw [withPreview_score]
    rfl
  have hrel : (withPreview (mkTopSourceInfo top) top.text).relevance_score
      = format3 top.score := by
    rw [withPreview_relevance]
    rfl
  constructor
  · rw [getResponse_genOk deps query history g hkey hgen]
    refine ⟨withPreview (mkTopSourceInfo top) top.text,
      (if optTruthy (runWebResult deps query)
       then [SourceEntry.webSearch query] else []), ?_, ?_, ?_, ?_⟩
    · show (match runTopInfo deps with
          | some i => [SourceEntry.knowledge i]
          | none => []) ++ _ = _
      rw [htop]
      rfl
    · exact ⟨top, htopmem, hscore⟩
    · intro c hc
      rw [hscore]
      exact htopmax c hc
    · rw [hrel, hscore]
  · decide

/-- Witness for C7 at the 0.9-vs-0.5 example. -/
theorem claim_C7_witness :
    (∃ info rest,
      (getResponse depsC7 "hi" []).sources = SourceEntry.knowledge info :: rest ∧
      (∃ c ∈ docsC7, info.score = c.score) ∧
      (∀ c ∈ docsC7, c.score ≤ info.score) ∧
      info.relevance_score = format3 info.score) ∧
    format3 0.9 = "0.900" :=
  claim_C7 depsC7 "hi" [] docsC7 ⟨"ans", "m", 3⟩ rfl (by decide) rfl rfl

end S2P
